import Mathlib

/-!
Shallow embedding of the match-three board engine
(`src/babel/src/board.js` together with the scanner/merger helpers of
`src/unnamed/part_000`), and proofs about the frozen claims.

Conventions used throughout:
* A grid is a `List (List Orb)`, row major, addressed `[row][col]`.
* The JS cleared sentinel `'␚'` is modelled by the dedicated
  constructor `Orb.cleared`; real tokens are `Orb.tok n`.
* JS `undefined` produced by an out-of-range index is modelled by `Option`.
* Randomness (`_.sample`, `_.random`, `_.shuffle`) is modelled by an
  injected supply `s : Nat → Nat` together with a draw counter that every
  consumer threads through and increments, so runs are deterministic
  functions of the supply.
* Unbounded `while` loops (`unmatch`, `shuffle`, the random fallback of
  `_unmatch`) are modelled with an explicit fuel argument and an `Option`
  result: `none` means the fuel ran out (or an unreachable JS crash point
  was hit), `some` means the loop returned.
-/

namespace MatchThree

/-- A cell value: a real token, or the cleared sentinel `'␚'` that
`evaluate` writes before the gravity pass. -/
inductive Orb where
  | tok : Nat → Orb
  | cleared : Orb
deriving DecidableEq, Repr

instance : Inhabited Orb := ⟨Orb.cleared⟩

/-- A board grid, row major (`this.orbs`). -/
abbrev Grid := List (List Orb)

/-- A coordinate `[row, col]`.  Components are integers because the JS
scanner can in degenerate cases produce indices outside `[0, dim)`. -/
abbrev Coord := Int × Int

/-- `this.orbs[r][c]` for natural indices; `none` models JS `undefined`. -/
def getN (g : Grid) (r c : Nat) : Option Orb :=
  (g.get? r).bind fun row => row.get? c

/-- `this.orbs[r][c]` for integer indices (negative index gives `undefined`). -/
def getI (g : Grid) (r c : Int) : Option Orb :=
  if 0 ≤ r ∧ 0 ≤ c then getN g r.toNat c.toNat else none

/-- `this.orbs[r][c]` read with a default, used where the JS code reads a
cell it knows to be in bounds. -/
def getDN (g : Grid) (r c : Nat) : Orb := (getN g r c).getD Orb.cleared

/-- In-place cell assignment `this.orbs[r][c] = v` (out-of-range is a no-op;
all call sites guarded by the theorems use in-bounds indices). -/
def setCellN (g : Grid) (r c : Nat) (v : Orb) : Grid :=
  match g, r with
  | [], _ => []
  | row :: rest, 0 => row.set c v :: rest
  | row :: rest, Nat.succ r => row :: setCellN rest r c v

/-- Integer-index cell assignment; negative indices are a no-op (unreachable
at the guarded call sites). -/
def setI (g : Grid) (r c : Int) (v : Orb) : Grid :=
  if 0 ≤ r ∧ 0 ≤ c then setCellN g r.toNat c.toNat v else g

/-- Column `c` of the grid, top to bottom. -/
def colOf (g : Grid) (c : Nat) : List Orb := g.map fun row => row.getD c Orb.cleared

/-- The grid is a rectangle with `h` rows of `w` cells each. -/
def Rect (g : Grid) (h w : Nat) : Prop := g.length = h ∧ ∀ row ∈ g, row.length = w

instance (g : Grid) (h w : Nat) : Decidable (Rect g h w) := by
  unfold Rect; infer_instance

/-- `_.zip(...orbs)`: the transpose.  For the rectangular grids the engine
works on, lodash `zip` is exactly the column list. -/
def transposeG (g : Grid) : Grid :=
  (List.range (g.headD []).length).map fun c => colOf g c

/-- lodash `_.range(0, e)`.  For `e < 0` lodash infers step `-1` and counts
down, so e.g. `_.range(0, -1) = [0]`; this quirk is what makes the scanner
emit windows on degenerate boards. -/
def jsRange0 (e : Int) : List Int :=
  if 0 ≤ e then (List.range e.toNat).map fun (k : Nat) => (k : Int)
  else (List.range (-e).toNat).map fun (k : Nat) => -(k : Int)

/-- JS `Array.prototype.slice(b, e)` (negative indices count from the end). -/
def jsSlice {α : Type} (l : List α) (b e : Int) : List α :=
  let n : Int := l.length
  let bc : Int := if b < 0 then max (n + b) 0 else min b n
  let ec : Int := if e < 0 then max (n + e) 0 else min e n
  (l.drop bc.toNat).take (ec - bc).toNat

/-! ## Scanner and detector (`src/unnamed/part_000`) -/

/-- `indexOfAll(list, value)`: indices of all occurrences, ascending. -/
def indexOfAll (l : List Orb) (v : Orb) : List Nat :=
  (List.range l.length).filter fun idx => decide (l.get? idx = some v)

/-- `hasMatchInSingleRow` (board.js calls it `hasPotentialMatchInSingleRow`):
`_.max(_.values(_.countBy(row))) > 2`.  The fold computes the max count over
the distinct values (0 for an empty row, matching `undefined > 2 = false`). -/
def hasMatchInSingleRow (row : List Orb) : Bool :=
  decide (2 < (row.dedup.map fun v => row.count v).foldl Nat.max 0)

/-- Insertion sort on naturals, modelling the JS `.sort()` of the (single
digit) occurrence indices. -/
def insertNat (x : Nat) : List Nat → List Nat
  | [] => [x]
  | y :: ys => if x ≤ y then x :: y :: ys else y :: insertNat x ys

def sortNat : List Nat → List Nat
  | [] => []
  | x :: xs => insertNat x (sortNat xs)

/-- `hasMatchInPairOfRows` (`hasPotentialMatchInPairOfRows` in board.js):
for each value occurring in the chunk, the sorted deduplicated union of its
occurrence indices in the two rows must be one of the contiguous patterns. -/
def hasMatchInPairOfRows (pair : List (List Orb)) : Bool :=
  let r0 := pair.getD 0 []
  let r1 := pair.getD 1 []
  let allValues := pair.flatten.dedup
  allValues.any fun v =>
    let m := sortNat ((indexOfAll r0 v ++ indexOfAll r1 v).dedup)
    decide (m = [0, 1, 2] ∨ m = [1, 2, 3] ∨ m = [0, 1, 2, 3])

/-- The `cw × ch` window of `g` anchored at `(hi, wi)`:
`orbs.slice(hi, hi+ch).map(row => row.slice(wi, wi+cw))`. -/
def chunkRows (g : Grid) (cw ch : Nat) (hi wi : Int) : List (List Orb) :=
  (jsSlice g hi (hi + ch)).map fun row => jsSlice row wi (wi + cw)

/-- `_iterchunks` without position information. -/
def iterchunksPlain (g : Grid) (cw ch : Nat) : List (List (List Orb)) :=
  (jsRange0 ((g.length : Int) - ch + 1)).flatMap fun hi =>
    (jsRange0 (((g.headD []).length : Int) - cw + 1)).map fun wi =>
      chunkRows g cw ch hi wi

/-- A chunk together with its `position` metadata. -/
structure PosChunk where
  rows : List (List Orb)
  first : Coord
  last : Coord
deriving DecidableEq, Repr

/-- `_iterchunks` with position information; when the scan ran over the
transposed grid the coordinates are reversed back (`.reverse()` on the
two-element arrays swaps the components). -/
def iterchunksPos (g : Grid) (cw ch : Nat) (isTransposed : Bool) : List PosChunk :=
  (jsRange0 ((g.length : Int) - ch + 1)).flatMap fun hi =>
    (jsRange0 (((g.headD []).length : Int) - cw + 1)).map fun wi =>
      let f0 : Coord := (hi, wi)
      let l0 : Coord := (hi + ch - 1, wi + cw - 1)
      { rows := chunkRows g cw ch hi wi
        first := if isTransposed then (f0.2, f0.1) else f0
        last := if isTransposed then (l0.2, l0.1) else l0 }

/-- `iterchunks(orbs)` with the default `[4, 2]` window: the grid's chunks
followed by the transposed grid's chunks. -/
def iterchunksDefault (g : Grid) : List (List (List Orb)) :=
  iterchunksPlain g 4 2 ++ iterchunksPlain (transposeG g) 4 2

/-- `Board.hasPotentialMatch`: the wide-scan existence heuristic. -/
def hasPotentialMatch (g : Grid) : Bool :=
  let chunks := iterchunksDefault g
  let flatChunks := chunks.flatten
  flatChunks.any hasMatchInSingleRow || chunks.any hasMatchInPairOfRows

/-- `Board.needsShuffle`. -/
def needsShuffle (g : Grid) : Bool := !hasPotentialMatch g

/-- `_findMatches(chunks, isTransposed)`: a chunk whose (single) row is all
equal yields the three absolute coordinates stepped from the anchor. -/
def findTriplesHalf (chunks : List PosChunk) (isTransposed : Bool) : List (List Coord) :=
  chunks.filterMap fun ck =>
    let orbsRow := ck.rows.headD []
    if orbsRow.dedup.length = 1 then
      let a := ck.first
      some (if isTransposed then [a, (a.1 + 1, a.2), (a.1 + 2, a.2)]
            else [a, (a.1, a.2 + 1), (a.1, a.2 + 2)])
    else none

/-- `findMatches(orbs)` (imported as `findTriples` by board.js): structural
enumeration with `[3, 1]` windows over the grid and its transpose. -/
def findMatches (g : Grid) : List (List Coord) :=
  findTriplesHalf (iterchunksPos g 3 1 false) false ++
    findTriplesHalf (iterchunksPos (transposeG g) 3 1 true) true

/-- `Board.hasMatch`: `Boolean(findTriples(this.orbs)[0])`. -/
def hasMatch (g : Grid) : Bool := !(findMatches g).isEmpty

/-! ## Match merger (`combineMatches`) -/

/-- Lexicographic order used by the `SortedSet` of coordinates. -/
def leCoord (a b : Coord) : Bool :=
  decide (a.1 < b.1) || (decide (a.1 = b.1) && decide (a.2 ≤ b.2))

def insertCoord (x : Coord) : List Coord → List Coord
  | [] => [x]
  | y :: ys => if leCoord x y then x :: y :: ys else y :: insertCoord x ys

def sortCoord : List Coord → List Coord
  | [] => []
  | x :: xs => insertCoord x (sortCoord xs)

/-- The sorted deduplicated coordinate list a `SortedSet` holds. -/
def canon (m : List Coord) : List Coord := sortCoord m.dedup

/-- One pass of the inner `_.each(couldMatch, ...)` loop: each remaining
group sharing a coordinate with the accumulator is unioned into it and
removed from the pool (the source's `before != currentMatch.toArray()`
removal guard compares fresh array references, hence is always true, so
removal happens exactly when the intersection is non-empty).  Returns the
final accumulator and the groups left unused, in order. -/
def combinePass (cur : List Coord) : List (List Coord) → List Coord × List (List Coord)
  | [] => (cur, [])
  | m :: rest =>
    if m.any fun x => decide (x ∈ cur) then
      combinePass (canon (cur ++ m)) rest
    else
      let pr := combinePass cur rest
      (pr.1, m :: pr.2)

/-- The outer `while (unused[0] != null)` loop, fuelled by the pool length
(each iteration shifts at least the seed off the pool, so `pool.length`
fuel always suffices). -/
def combineMatchesAux : Nat → List (List Coord) → List (List Coord)
  | 0, _ => []
  | _, [] => []
  | Nat.succ fuel, m :: rest =>
    let pr := combinePass (canon m) rest
    pr.1 :: combineMatchesAux fuel pr.2

/-- `combineMatches(matches)`. -/
def combineMatches (pool : List (List Coord)) : List (List Coord) :=
  combineMatchesAux pool.length pool

/-- The seed (first unprocessed raw group, as the sorted set it is turned
into) of each outer iteration of `combineMatches`. -/
def combineSeedsAux : Nat → List (List Coord) → List (List Coord)
  | 0, _ => []
  | _, [] => []
  | Nat.succ fuel, m :: rest =>
    canon m :: combineSeedsAux fuel (combinePass (canon m) rest).2

def combineSeeds (pool : List (List Coord)) : List (List Coord) :=
  combineSeedsAux pool.length pool

/-! ## Cascade resolver (`Board.evaluate`) -/

/-- `_.sample(list)` driven by one supply draw `x`; an empty list yields the
JS `undefined`, modelled by the sentinel (never hit under the theorems'
hypotheses). -/
def jsSampleD (l : List Orb) (x : Nat) : Orb := l.getD (x % l.length) Orb.cleared

/-- Mark every coordinate of one match group with the cleared sentinel. -/
def markGroup (g : Grid) (m : List Coord) : Grid :=
  m.foldl (fun acc p => setI acc p.1 p.2 Orb.cleared) g

/-- The first phase of `evaluate`: per group, record
`[orbs[match[0][0]][match[0][1]], match.length]` from the current grid and
then overwrite the group's cells with the sentinel. -/
def evalMark : Grid → List (List Coord) → Grid × List (Orb × Nat)
  | g, [] => (g, [])
  | g, m :: ms =>
    let headC := m.headD (0, 0)
    let datum := ((getI g headC.1 headC.2).getD Orb.cleared, m.length)
    let res := evalMark (markGroup g m) ms
    (res.1, datum :: res.2)

/-- The inner `for (z = row; z >= 0; z--)` loop of the gravity pass at
column `c`, triggered at row `r`: each cell takes the value above it and
row 0 takes the freshly sampled orb. -/
def dropAt : Grid → Nat → Nat → Orb → Grid
  | g, 0, c, x => setCellN g 0 c x
  | g, Nat.succ r, c, x => dropAt (setCellN g (r + 1) c (getDN g r c)) r c x

/-- One visit of the row-major sweep: if the cell currently holds the
sentinel, run the upward shift and consume one supply draw for the refill. -/
def dropCell (s : Nat → Nat) (opts : List Orb) (r c : Nat) (st : Grid × Nat) : Grid × Nat :=
  if getN st.1 r c = some Orb.cleared then
    (dropAt st.1 r c (jsSampleD opts (s st.2)), st.2 + 1)
  else st

/-- The full top-to-bottom, left-to-right gravity sweep of `evaluate`. -/
def dropPass (g : Grid) (h w : Nat) (s : Nat → Nat) (opts : List Orb) (i : Nat) :
    Grid × Nat :=
  (List.range h).foldl
    (fun st r => (List.range w).foldl (fun st2 c => dropCell s opts r c st2) st)
    (g, i)

/-- `Board.evaluate(matches, dropOptions)`: returns the mutated grid, the
match events `[(type, size), ...]`, and the advanced draw counter. -/
def evaluateM (g : Grid) (h w : Nat) (groups : List (List Coord)) (opts : List Orb)
    (s : Nat → Nat) (i : Nat) : Grid × List (Orb × Nat) × Nat :=
  let md := evalMark g groups
  let dp := dropPass md.1 h w s opts i
  (dp.1, md.2, dp.2)

/-! ## Move validator (`Board.swap`) -/

/-- The raw exchange of two cells (both reads go through the pre-swap
snapshot `orbsBefore`, as in the source). -/
def swapGridN (g : Grid) (p q : Nat × Nat) : Grid :=
  let a := getDN g p.1 p.2
  let b := getDN g q.1 q.2
  setCellN (setCellN g p.1 p.2 b) q.1 q.2 a

/-- `Board.swap(swapOrbs, playerSwap)`: exchange, then restore the snapshot
if a player swap produced no match. -/
def swapM (g : Grid) (p q : Nat × Nat) (playerSwap : Bool) : Grid :=
  let after := swapGridN g p q
  if playerSwap && !hasMatch after then g else after

/-- Integer-coordinate wrapper for the internal repair swaps; a negative
component would make the JS write throw, which the guarded call sites never
do, so it is modelled as a no-op. -/
def swapI (g : Grid) (p q : Coord) (playerSwap : Bool) : Grid :=
  if 0 ≤ p.1 ∧ 0 ≤ p.2 ∧ 0 ≤ q.1 ∧ 0 ≤ q.2 then
    swapM g (p.1.toNat, p.2.toNat) (q.1.toNat, q.2.toNat) playerSwap
  else g

/-! ## Deadlock repairer (`Board._unmatch`, `Board.unmatch`, `Board.shuffle`)
and the constructor -/

/-- `_.random(n)`: a uniform integer in `[0, n]`, driven by one draw. -/
def jsRandomN (n : Nat) (x : Nat) : Nat := x % (n + 1)

/-- One swap step of a Fisher-Yates shuffle on a list. -/
def listSwap {α : Type} [Inhabited α] (l : List α) (a b : Nat) : List α :=
  let x := l.getD a default
  let y := l.getD b default
  (l.set a y).set b x

/-- Fisher-Yates driven by the supply, as lodash `_.shuffle` performs it;
returns the shuffled list and the advanced counter. -/
def fyGo {α : Type} [Inhabited α] (s : Nat → Nat) :
    Nat → List α → Nat → Nat → List α × Nat
  | 0, arr, _, i => (arr, i)
  | Nat.succ n, arr, k, i =>
    fyGo s n (listSwap arr k (k + s i % (arr.length - k))) (k + 1) (i + 1)

def fisherYates {α : Type} [Inhabited α] (l : List α) (s : Nat → Nat) (i : Nat) :
    List α × Nat :=
  fyGo s l.length l 0 i

/-- `!_.isUndefined(this.orbs[r])`. -/
def rowDefinedI (g : Grid) (r : Int) : Bool :=
  decide (0 ≤ r) && decide (r.toNat < g.length)

/-- `_.includes(match, [randomRow, randomCol])` in the fallback loop of
`_unmatch`: lodash `includes` compares with SameValueZero, and the probe
`[randomRow, randomCol]` is a freshly allocated array, so the comparison is
by object reference and never succeeds.  The guard is therefore always
false, which this definition records. -/
def coordRefIncludes (_m : List Coord) (_c : Coord) : Bool := false

/-- The `while (!swapped)` random-fallback loop of `_unmatch`: sample a row
and a column, accept when the (reference-compared, hence vacuous) match
test fails and the cell differs from the target orb. -/
def fallbackLoop (g : Grid) (height width : Nat) (thisOrb : Option Orb)
    (mt : List Coord) (s : Nat → Nat) : Nat → Nat → Option ((Nat × Nat) × Nat)
  | 0, _ => none
  | Nat.succ fuel, i =>
    let rr := jsRandomN (height - 1) (s i)
    let rc := jsRandomN (width - 1) (s (i + 1))
    if !coordRefIncludes mt ((rr : Int), (rc : Int)) &&
        decide (getI g rr rc ≠ thisOrb) then
      some ((rr, rc), i + 2)
    else fallbackLoop g height width thisOrb mt s fuel (i + 2)

/-- The availability-and-difference test for each direction (0 = up,
1 = down, 2 = left, 3 = right), exactly as the chained conditions in
`_unmatch` (up and down check that the row exists, left and right check the
cell itself). -/
def dirCond (g : Grid) (thisOrb : Option Orb) (row col : Int) : Nat → Bool
  | 0 => rowDefinedI g (row - 1) && decide (getI g (row - 1) col ≠ thisOrb)
  | 1 => rowDefinedI g (row + 1) && decide (getI g (row + 1) col ≠ thisOrb)
  | 2 => (getI g row (col - 1)).isSome && decide (getI g row (col - 1) ≠ thisOrb)
  | 3 => (getI g row (col + 1)).isSome && decide (getI g row (col + 1) ≠ thisOrb)
  | _ => false

def dirTarget (row col : Int) : Nat → Coord
  | 0 => (row - 1, col)
  | 1 => (row + 1, col)
  | 2 => (row, col - 1)
  | 3 => (row, col + 1)
  | _ => (row, col)

/-- Scan the shuffled direction list for the first direction that passes. -/
def findDir (g : Grid) (thisOrb : Option Orb) (row col : Int) : List Nat → Option Nat
  | [] => none
  | d :: ds => if dirCond g thisOrb row col d then some d else findDir g thisOrb row col ds

/-- `Board._unmatch(row, col, match, skipToRandom)`.  `height`/`width` are
the board fields used by `_.random(this.height - 1)` / `_.random(this.width - 1)`. -/
def unmatchOrb (g : Grid) (height width : Nat) (row col : Int) (mt : List Coord)
    (skipToRandom : Bool) (s : Nat → Nat) (fuel i : Nat) : Option (Grid × Nat) :=
  let thisOrb := getI g row col
  let fy := fisherYates [0, 1, 2, 3] s i
  let dirRes := if skipToRandom then none else findDir g thisOrb row col fy.1
  match dirRes with
  | some d => some (swapI g (row, col) (dirTarget row col d) false, fy.2)
  | none =>
    match fallbackLoop g height width thisOrb mt s fuel fy.2 with
    | some (rrc, i2) => some (swapI g (row, col) ((rrc.1 : Int), (rrc.2 : Int)) false, i2)
    | none => none

/-- One iteration of the `while (this.hasMatch())` body of `Board.unmatch`:
take the first combined match, classify it as simple (single row or single
column) or irregular, and invoke the repair primitive on the median or on a
randomly sampled intersection. -/
def unmatchBody (g : Grid) (height width : Nat) (s : Nat → Nat) (fuel i : Nat) :
    Option (Grid × Nat) :=
  match combineMatches (findMatches g) with
  | [] => none
  | mt :: _ =>
    let rowCoords := mt.map Prod.fst
    let colCoords := mt.map Prod.snd
    if rowCoords.dedup.length = 1 ∨ colCoords.dedup.length = 1 then
      let med := mt.getD (mt.length / 2) (0, 0)
      let midRow := med.1
      let midCol := med.2
      let midNeighbors :=
        if rowCoords.dedup.length = 1 then
          [getI g midRow (midCol - 1), getI g midRow (midCol + 1)]
        else
          [getI g (midRow - 1) midCol, getI g (midRow + 1) midCol]
      let isSideBySide := midNeighbors.contains (getI g midRow midCol)
      unmatchOrb g height width midRow midCol mt isSideBySide s fuel i
    else
      let matchRows := rowCoords.dedup.filter fun r => decide (2 < rowCoords.count r)
      let matchCols := colCoords.dedup.filter fun c => decide (2 < colCoords.count c)
      let intersections :=
        mt.filter fun p => matchRows.contains p.1 && matchCols.contains p.2
      match intersections.get? (s i % intersections.length) with
      | none => none
      | some p => unmatchOrb g height width p.1 p.2 mt false s fuel (i + 1)

/-- `Board.unmatch`: loop the body while a match remains. -/
def unmatchLoop (height width : Nat) (s : Nat → Nat) :
    Nat → Grid → Nat → Option (Grid × Nat)
  | 0, _, _ => none
  | Nat.succ fuel, g, i =>
    if hasMatch g then
      match unmatchBody g height width s fuel i with
      | none => none
      | some gi => unmatchLoop height width s fuel gi.1 gi.2
    else some (g, i)

/-- `this.orbs = _.map(this.orbs, row => _.shuffle(row))`. -/
def shuffleRowsM : Grid → (Nat → Nat) → Nat → Grid × Nat
  | [], _, i => ([], i)
  | row :: rest, s, i =>
    let fy := fisherYates row s i
    let res := shuffleRowsM rest s fy.2
    (fy.1 :: res.1, res.2)

/-- `Board.shuffle`: permute each row, `unmatch`, and recurse while the
board still needs a shuffle. -/
def shuffleLoop (height width : Nat) (s : Nat → Nat) :
    Nat → Grid → Nat → Option (Grid × Nat)
  | 0, _, _ => none
  | Nat.succ fuel, g, i =>
    let sr := shuffleRowsM g s i
    match unmatchLoop height width s fuel sr.1 sr.2 with
    | none => none
    | some gi =>
      if needsShuffle gi.1 then shuffleLoop height width s fuel gi.1 gi.2
      else some gi

/-- The orchestrating `Board` record. -/
structure Board where
  width : Nat
  height : Nat
  types : List Orb
  orbs : Grid
deriving DecidableEq, Repr

/-- `chooseOrb`: `_.sample(this.types)`. -/
def sampleOrb (types : List Orb) (s : Nat → Nat) (i : Nat) : Orb :=
  types.getD (s i % types.length) Orb.cleared

/-- `sampleRow`: `_.times(this.width, chooseOrb)`. -/
def sampleRowM (types : List Orb) (s : Nat → Nat) : Nat → Nat → List Orb × Nat
  | 0, i => ([], i)
  | Nat.succ w, i =>
    let o := sampleOrb types s i
    let res := sampleRowM types s w (i + 1)
    (o :: res.1, res.2)

/-- `_.times(this.height, sampleRow)`: `h` sampled rows of `w` cells. -/
def sampleRowsM (types : List Orb) (s : Nat → Nat) (w : Nat) : Nat → Nat → Grid × Nat
  | 0, i => ([], i)
  | Nat.succ hh, i =>
    let row := sampleRowM types s w i
    let res := sampleRowsM types s w hh row.2
    (row.1 :: res.1, res.2)

/-- `Board.constructor(width, height, types)`: sample `height` rows of
`width` cells, transpose them (the `_.zip(..._.times(...))` quirk), and
shuffle if the grid has a match or needs a shuffle. -/
def constructM (width height : Nat) (types : List Orb) (s : Nat → Nat)
    (fuel i : Nat) : Option (Board × Nat) :=
  let sampled := sampleRowsM types s width height i
  let orbs := transposeG sampled.1
  if hasMatch orbs || needsShuffle orbs then
    match shuffleLoop height width s fuel orbs sampled.2 with
    | none => none
    | some gi => some ({ width := width, height := height, types := types, orbs := gi.1 }, gi.2)
  else
    some ({ width := width, height := height, types := types, orbs := orbs }, sampled.2)

/-! ## Basic grid lemmas -/

theorem length_setCellN (g : Grid) (r c : Nat) (v : Orb) :
    (setCellN g r c v).length = g.length := by
  induction g generalizing r with
  | nil => rfl
  | cons row rest ih => cases r <;> simp [setCellN, ih]

theorem mem_setCellN_length (g : Grid) (r c : Nat) (v : Orb) :
    ∀ row ∈ setCellN g r c v, ∃ row0 ∈ g, row.length = row0.length := by
  induction g generalizing r with
  | nil => intro row hrow; simp [setCellN] at hrow
  | cons hd tl ih =>
    intro row hrow
    cases r with
    | zero =>
      simp only [setCellN, List.mem_cons] at hrow
      rcases hrow with h1 | h1
      · exact ⟨hd, by simp, by simp [h1]⟩
      · exact ⟨row, by simp [h1], rfl⟩
    | succ r =>
      simp only [setCellN, List.mem_cons] at hrow
      rcases hrow with h1 | h1
      · exact ⟨hd, by simp, by simp [h1]⟩
      · obtain ⟨row0, hm, hlen⟩ := ih r row h1
        exact ⟨row0, by simp [hm], hlen⟩

theorem rect_setCellN {g : Grid} {hh ww : Nat} (r c : Nat) (v : Orb)
    (hg : Rect g hh ww) : Rect (setCellN g r c v) hh ww := by
  obtain ⟨hl, hr⟩ := hg
  refine ⟨by rw [length_setCellN]; exact hl, ?_⟩
  intro row hrow
  obtain ⟨row0, hm, hlen⟩ := mem_setCellN_length g r c v row hrow
  rw [hlen]; exact hr row0 hm

theorem getN_setCellN_ne (g : Grid) (r c r2 c2 : Nat) (v : Orb)
    (hne : ¬(r = r2 ∧ c = c2)) :
    getN (setCellN g r c v) r2 c2 = getN g r2 c2 := by
  induction g generalizing r r2 with
  | nil => simp [setCellN]
  | cons hd tl ih =>
    cases r with
    | zero =>
      cases r2 with
      | zero =>
        have hcc : c ≠ c2 := fun h => hne ⟨rfl, h⟩
        simp [setCellN, getN, List.getElem?_set_ne hcc]
      | succ r2 => simp [setCellN, getN]
    | succ r =>
      cases r2 with
      | zero => simp [setCellN, getN]
      | succ r2 =>
        have : ¬(r = r2 ∧ c = c2) := fun h => hne ⟨by rw [h.1], h.2⟩
        simpa [setCellN, getN] using ih r r2 this

theorem getN_setCellN_self (g : Grid) (r c : Nat) (v : Orb) (row : List Orb)
    (hrow : g.get? r = some row) (hc : c < row.length) :
    getN (setCellN g r c v) r c = some v := by
  induction g generalizing r with
  | nil => simp at hrow
  | cons hd tl ih =>
    cases r with
    | zero =>
      simp only [List.get?] at hrow
      cases hrow
      simp [setCellN, getN, List.getElem?_set_eq_of_lt _ hc]
    | succ r =>
      simp only [List.get?] at hrow
      simpa [setCellN, getN] using ih r hrow

theorem getN_eq_some (g : Grid) {hh ww : Nat} (r c : Nat) (hg : Rect g hh ww)
    (hr : r < hh) (hc : c < ww) : ∃ v, getN g r c = some v := by
  obtain ⟨hl, hrows⟩ := hg
  cases hrow : g.get? r with
  | none =>
    rw [List.get?_eq_none] at hrow; omega
  | some row =>
    have hmem : row ∈ g := List.get?_mem hrow
    have hlen : row.length = ww := hrows row hmem
    cases hcel : row.get? c with
    | none => rw [List.get?_eq_none] at hcel; omega
    | some v =>
      refine ⟨v, ?_⟩
      rw [List.get?_eq_getElem?] at hrow hcel
      simp [getN, hrow, hcel]

theorem getDN_set_self (g : Grid) {hh ww : Nat} (r c : Nat) (v : Orb)
    (hg : Rect g hh ww) (hr : r < hh) (hc : c < ww) :
    getDN (setCellN g r c v) r c = v := by
  obtain ⟨hl, hrows⟩ := hg
  cases hrow : g.get? r with
  | none => rw [List.get?_eq_none] at hrow; omega
  | some row =>
    have hlen : row.length = ww := hrows row (List.get?_mem hrow)
    rw [getDN, getN_setCellN_self g r c v row hrow (by omega)]
    rfl

/-! ## Token-multiset lemmas for `swap` (claim C10) -/

theorem count_set_row (row : List Orb) (c : Nat) (v x : Orb) (hc : c < row.length) :
    (row.set c v).count x + (if row.getD c Orb.cleared = x then 1 else 0)
      = row.count x + (if v = x then 1 else 0) := by
  induction row generalizing c with
  | nil => simp at hc
  | cons a as ih =>
    cases c with
    | zero =>
      simp only [List.set, List.getD_cons_zero, List.count_cons]
      by_cases h1 : a = x <;> by_cases h2 : v = x <;>
        simp [h1, h2] <;> omega
    | succ c =>
      have hc2 : c < as.length := by simpa using hc
      have h3 := ih c hc2
      simp only [List.getD_eq_getElem?_getD] at h3
      simp only [List.set, List.getD_cons_succ, List.count_cons,
        List.getD_eq_getElem?_getD]
      by_cases h1 : a = x <;> simp [h1] <;> omega

theorem count_flatten_setCellN (g : Grid) (r c : Nat) (v x : Orb) (row : List Orb)
    (hrow : g.get? r = some row) (hc : c < row.length) :
    (setCellN g r c v).flatten.count x + (if getDN g r c = x then 1 else 0)
      = g.flatten.count x + (if v = x then 1 else 0) := by
  induction g generalizing r with
  | nil => simp at hrow
  | cons hd tl ih =>
    cases r with
    | zero =>
      simp only [List.get?] at hrow
      cases hrow
      have hget : getDN (row :: tl) 0 c = row.getD c Orb.cleared := rfl
      rw [hget]
      simp only [setCellN, List.flatten_cons, List.count_append]
      have := count_set_row row c v x hc
      omega
    | succ r =>
      simp only [List.get?] at hrow
      have hget : getDN (hd :: tl) (r + 1) c = getDN tl r c := by
        simp [getDN, getN]
      rw [hget]
      simp only [setCellN, List.flatten_cons, List.count_append]
      have := ih r hrow
      omega

theorem getDN_setCellN_ne (g : Grid) (r c r2 c2 : Nat) (v : Orb)
    (hne : ¬(r = r2 ∧ c = c2)) :
    getDN (setCellN g r c v) r2 c2 = getDN g r2 c2 := by
  rw [getDN, getN_setCellN_ne g r c r2 c2 v hne]; rfl

theorem foldl_fixed {α β : Type} (f : β → α → β) (b : β) (h : ∀ a, f b a = b) :
    ∀ l : List α, l.foldl f b = b
  | [] => rfl
  | x :: xs => by rw [List.foldl_cons, h x]; exact foldl_fixed f b h xs

theorem getN_mem_flatten (g : Grid) (r c : Nat) (v : Orb) (h : getN g r c = some v) :
    v ∈ g.flatten := by
  unfold getN at h
  cases hrow : g.get? r with
  | none => rw [hrow] at h; simp at h
  | some row =>
    rw [hrow] at h
    simp only [Option.some_bind] at h
    exact List.mem_flatten.mpr ⟨row, List.get?_mem hrow, List.get?_mem h⟩

/-- If the grid holds no sentinel, the gravity sweep finds nothing to do. -/
theorem dropPass_noop (g : Grid) (hh ww : Nat) (s : Nat → Nat) (opts : List Orb)
    (i : Nat) (hclean : Orb.cleared ∉ g.flatten) :
    dropPass g hh ww s opts i = (g, i) := by
  have hcell : ∀ r c, getN g r c ≠ some Orb.cleared := by
    intro r c hcl
    exact hclean (getN_mem_flatten g r c Orb.cleared hcl)
  unfold dropPass
  apply foldl_fixed
  intro r
  apply foldl_fixed
  intro c
  simp [dropCell, hcell r c]

/-! ## Gravity-pass lemmas (claim C2) -/

theorem take_set_of_le {α : Type} (l : List α) (i n : Nat) (v : α) (h : n ≤ i) :
    (l.set i v).take n = l.take n := by
  induction l generalizing i n with
  | nil => simp
  | cons a as ih =>
    cases i with
    | zero =>
      have : n = 0 := by omega
      subst this; simp
    | succ i =>
      cases n with
      | zero => simp
      | succ n => simpa [List.set, List.take] using ih i n (by omega)

theorem drop_set_cons {α : Type} (l : List α) (i : Nat) (v : α) (h : i < l.length) :
    (l.set i v).drop i = v :: l.drop (i + 1) := by
  induction l generalizing i with
  | nil => simp at h
  | cons a as ih =>
    cases i with
    | zero => simp
    | succ i => simpa [List.set, List.drop] using ih i (by simpa using h)

theorem jsSampleD_mem (l : List Orb) (x : Nat) (h : l ≠ []) : jsSampleD l x ∈ l := by
  unfold jsSampleD
  have hlen : 0 < l.length := List.length_pos.mpr h
  have hlt : x % l.length < l.length := Nat.mod_lt x hlen
  rw [List.getD_eq_getElem?_getD, List.getElem?_eq_getElem hlt]
  exact List.getElem_mem hlt

theorem rect_dropAt (g : Grid) {hh ww : Nat} (r c : Nat) (x : Orb)
    (hg : Rect g hh ww) : Rect (dropAt g r c x) hh ww := by
  induction r generalizing g with
  | zero => exact rect_setCellN 0 c x hg
  | succ r ih => exact ih _ (rect_setCellN (r + 1) c _ hg)

theorem colOf_setCellN_self (g : Grid) (r c : Nat) (v : Orb)
    (hrows : ∀ row ∈ g, c < row.length) :
    colOf (setCellN g r c v) c = (colOf g c).set r v := by
  induction g generalizing r with
  | nil => cases r <;> rfl
  | cons hd tl ih =>
    cases r with
    | zero =>
      have hc : c < hd.length := hrows hd (by simp)
      simp only [setCellN, colOf, List.map_cons, List.set]
      congr 1
      rw [List.getD_eq_getElem?_getD, List.getElem?_set_eq_of_lt v hc]
      rfl
    | succ r =>
      simp only [setCellN, colOf, List.map_cons, List.set]
      congr 1
      exact ih r (fun row hrow => hrows row (List.mem_cons_of_mem hd hrow))

theorem colOf_setCellN_ne (g : Grid) (r c c2 : Nat) (v : Orb) (hne : c ≠ c2) :
    colOf (setCellN g r c v) c2 = colOf g c2 := by
  induction g generalizing r with
  | nil => cases r <;> rfl
  | cons hd tl ih =>
    cases r with
    | zero =>
      simp only [setCellN, colOf, List.map_cons]
      congr 1
      rw [List.getD_eq_getElem?_getD, List.getElem?_set_ne hne,
        List.getD_eq_getElem?_getD]
    | succ r =>
      simp only [setCellN, colOf, List.map_cons]
      congr 1
      exact ih r

theorem getN_eq_colOf_get? (g : Grid) (r c : Nat)
    (hrows : ∀ row ∈ g, c < row.length) :
    getN g r c = (colOf g c).get? r := by
  induction g generalizing r with
  | nil => cases r <;> rfl
  | cons hd tl ih =>
    cases r with
    | zero =>
      have hc : c < hd.length := hrows hd (by simp)
      have hgd : hd.getD c Orb.cleared = hd[c] := by
        rw [List.getD_eq_getElem?_getD, List.getElem?_eq_getElem hc]
        rfl
      simp only [getN, colOf, List.map_cons, List.get?, Option.some_bind]
      rw [hgd, List.get?_eq_getElem?, List.getElem?_eq_getElem hc]
    | succ r =>
      simp only [getN, colOf, List.map_cons, List.get?]
      have hstep := ih r (fun row hrow => hrows row (List.mem_cons_of_mem hd hrow))
      simpa [getN, colOf] using hstep

theorem getDN_eq_colOf_getD (g : Grid) (r c : Nat)
    (hrows : ∀ row ∈ g, c < row.length) :
    getDN g r c = (colOf g c).getD r Orb.cleared := by
  rw [getDN, getN_eq_colOf_get? g r c hrows, List.getD_eq_getElem?_getD,
    List.get?_eq_getElem?]

theorem colOf_dropAt_ne (g : Grid) (r c c2 : Nat) (x : Orb) (hne : c ≠ c2) :
    colOf (dropAt g r c x) c2 = colOf g c2 := by
  induction r generalizing g with
  | zero => exact colOf_setCellN_ne g 0 c c2 x hne
  | succ r ih =>
    unfold dropAt
    rw [ih _, colOf_setCellN_ne g (r + 1) c c2 _ hne]

theorem length_colOf (g : Grid) (c : Nat) : (colOf g c).length = g.length := by
  simp [colOf]

theorem colOf_dropAt_self (g : Grid) (r c : Nat) (x : Orb)
    (hrows : ∀ row ∈ g, c < row.length) (hr : r < g.length) :
    colOf (dropAt g r c x) c
      = x :: (colOf g c).take r ++ (colOf g c).drop (r + 1) := by
  induction r generalizing g with
  | zero =>
    unfold dropAt
    rw [colOf_setCellN_self g 0 c x hrows]
    cases hcol : colOf g c with
    | nil =>
      have := length_colOf g c
      rw [hcol] at this
      simp at this
      omega
    | cons y rest => simp
  | succ r ih =>
    unfold dropAt
    have hrows2 : ∀ row ∈ setCellN g (r + 1) c (getDN g r c), c < row.length := by
      intro row hrow
      obtain ⟨row0, hm, hlen⟩ := mem_setCellN_length g (r + 1) c _ row hrow
      rw [hlen]; exact hrows row0 hm
    have hlen2 : r < (setCellN g (r + 1) c (getDN g r c)).length := by
      rw [length_setCellN]; omega
    rw [ih _ hrows2 hlen2]
    rw [colOf_setCellN_self g (r + 1) c _ hrows]
    have hlcol : r + 1 < (colOf g c).length := by rw [length_colOf]; omega
    rw [take_set_of_le _ _ _ _ (by omega), drop_set_cons _ _ _ hlcol]
    rw [getDN_eq_colOf_getD g r c hrows]
    have htake : (colOf g c).take (r + 1)
        = (colOf g c).take r ++ [(colOf g c).getD r Orb.cleared] := by
      rw [List.take_succ]
      congr 1
      rw [List.getD_eq_getElem?_getD, List.getElem?_eq_getElem (by omega)]
      rfl
    rw [htake]
    simp

/-- The survivor test of the gravity pass: the cell is not the sentinel. -/
def notClearedB (x : Orb) : Bool := decide (x ≠ Orb.cleared)

theorem filter_ne_length_add_count (l : List Orb) :
    (l.filter notClearedB).length + l.count Orb.cleared = l.length := by
  induction l with
  | nil => rfl
  | cons a as ih =>
    by_cases ha : a = Orb.cleared
    · subst ha
      rw [List.filter_cons, if_neg (by simp [notClearedB]), List.count_cons_self]
      simp only [List.length_cons]
      omega
    · rw [List.filter_cons, if_pos (by simp [notClearedB, ha]),
        List.count_cons_of_ne (Ne.symm ha)]
      simp only [List.length_cons]
      omega

/-- The per-column invariant of the gravity sweep: after the sweep has
visited rows `0, …, k-1` of a column whose content right after marking was
`col0`, the column holds some refill tokens, then the survivors of the
visited prefix, then the untouched suffix. -/
def ColStage (opts col0 : List Orb) (k : Nat) (col : List Orb) : Prop :=
  ∃ R : List Orb,
    col = R ++ (col0.take k).filter notClearedB ++ col0.drop k
    ∧ R.length = (col0.take k).count Orb.cleared
    ∧ ∀ x ∈ R, x ∈ opts

theorem colStage_zero (opts col0 : List Orb) : ColStage opts col0 0 col0 :=
  ⟨[], by simp, by simp, by simp⟩

theorem colStage_prefix_len (col0 : List Orb) (k : Nat) (R : List Orb)
    (hk : k ≤ col0.length) (hR : R.length = (col0.take k).count Orb.cleared) :
    (R ++ (col0.take k).filter notClearedB).length = k := by
  rw [List.length_append, hR]
  have h1 := filter_ne_length_add_count (col0.take k)
  have h2 : (col0.take k).length = k := by
    rw [List.length_take]; omega
  omega

theorem colStage_get (opts col0 : List Orb) (k : Nat) (col : List Orb)
    (hc : ColStage opts col0 k col) (hk : k ≤ col0.length) :
    col.get? k = col0.get? k := by
  obtain ⟨R, hcol, hR, _⟩ := hc
  have hpre := colStage_prefix_len col0 k R hk hR
  rw [hcol, List.get?_append_right (by omega), hpre]
  rw [show k - k = 0 by omega]
  rw [List.get?_drop]
  rfl

theorem colStage_step_clean (opts col0 : List Orb) (k : Nat) (col : List Orb)
    (v : Orb) (hc : ColStage opts col0 k col) (hv : col0.get? k = some v)
    (hvne : v ≠ Orb.cleared) : ColStage opts col0 (k + 1) col := by
  obtain ⟨R, hcol, hR, hRopts⟩ := hc
  obtain ⟨hlt, hgetv⟩ := List.get?_eq_some.mp hv
  have hdrop : col0.drop k = v :: col0.drop (k + 1) := by
    rw [List.drop_eq_get_cons hlt, hgetv]
  have htake : col0.take (k + 1) = col0.take k ++ [v] := by
    rw [List.take_succ]
    congr 1
    rw [← List.get?_eq_getElem?, hv]
    rfl
  refine ⟨R, ?_, ?_, hRopts⟩
  · rw [hcol, htake, List.filter_append, hdrop]
    rw [show ([v].filter notClearedB) = [v] from by
      rw [List.filter_cons, if_pos (by simp [notClearedB, hvne])]; rfl]
    simp [List.append_assoc]
  · rw [htake, List.count_append, hR, List.count_singleton']
    simp [hvne]

theorem colStage_step_cleared (opts col0 : List Orb) (k : Nat) (col : List Orb)
    (refill : Orb) (hc : ColStage opts col0 k col) (hk : k < col0.length)
    (hX : col0.get? k = some Orb.cleared) (hre : refill ∈ opts) :
    ColStage opts col0 (k + 1) (refill :: (col.take k ++ col.drop (k + 1))) := by
  obtain ⟨R, hcol, hR, hRopts⟩ := hc
  have hpre := colStage_prefix_len col0 k R (by omega) hR
  obtain ⟨hlt, hgetv⟩ := List.get?_eq_some.mp hX
  have hdrop : col0.drop k = Orb.cleared :: col0.drop (k + 1) := by
    rw [List.drop_eq_get_cons hlt, hgetv]
  have htake : col0.take (k + 1) = col0.take k ++ [Orb.cleared] := by
    rw [List.take_succ]
    congr 1
    rw [← List.get?_eq_getElem?, hX]
    rfl
  have hfil : (col0.take (k + 1)).filter notClearedB
      = (col0.take k).filter notClearedB := by
    rw [htake, List.filter_append]
    rw [show ([Orb.cleared].filter notClearedB) = [] from by
      rw [List.filter_cons, if_neg (by simp [notClearedB])]; rfl]
    simp
  have htk : col.take k = R ++ (col0.take k).filter notClearedB := by
    rw [hcol]
    exact List.take_left' hpre
  have hdk : col.drop (k + 1) = col0.drop (k + 1) := by
    rw [hcol]
    have h2 : ((R ++ (col0.take k).filter notClearedB) ++ col0.drop k).drop
        ((R ++ (col0.take k).filter notClearedB).length + 1)
        = (col0.drop k).drop 1 := List.drop_append 1
    rw [hpre] at h2
    rw [h2, hdrop]
    rfl
  refine ⟨refill :: R, ?_, ?_, ?_⟩
  · rw [htk, hdk, hfil]
    simp [List.append_assoc]
  · rw [htake, List.count_append, List.count_singleton']
    simp only [List.length_cons, hR]
    simp
  · intro x hx
    rcases List.mem_cons.mp hx with h | h
    · exact h ▸ hre
    · exact hRopts x h

/-- One visit of the sweep advances the visited column's stage by one and
leaves every other column untouched. -/
theorem dropCell_step (opts : List Orb) (s : Nat → Nat) (gm : Grid) {hh ww : Nat}
    (hopts : opts ≠ []) (r c : Nat) (hr : r < hh) (hc : c < ww)
    (hrg : Rect gm hh ww) (g : Grid) (i : Nat) (hrect : Rect g hh ww)
    (hcs : ColStage opts (colOf gm c) r (colOf g c)) :
    Rect (dropCell s opts r c (g, i)).1 hh ww
    ∧ ColStage opts (colOf gm c) (r + 1) (colOf (dropCell s opts r c (g, i)).1 c)
    ∧ ∀ c2, c2 ≠ c → colOf (dropCell s opts r c (g, i)).1 c2 = colOf g c2 := by
  have hrowsg : ∀ row ∈ g, c < row.length := fun row hrow => by
    rw [hrect.2 row hrow]; omega
  have hlen0 : (colOf gm c).length = hh := by rw [length_colOf, hrg.1]
  have hget : getN g r c = (colOf gm c).get? r := by
    rw [getN_eq_colOf_get? g r c hrowsg]
    exact colStage_get opts _ r _ hcs (by omega)
  cases hcell : (colOf gm c).get? r with
  | none =>
    exfalso
    rw [List.get?_eq_none] at hcell
    omega
  | some v =>
    by_cases hv : v = Orb.cleared
    · subst hv
      have hcond : getN g r c = some Orb.cleared := by rw [hget, hcell]
      unfold dropCell
      rw [if_pos hcond]
      refine ⟨rect_dropAt _ r c _ hrect, ?_, ?_⟩
      · rw [colOf_dropAt_self g r c _ hrowsg (by rw [hrect.1]; omega)]
        exact colStage_step_cleared opts (colOf gm c) r (colOf g c)
          (jsSampleD opts (s i)) hcs (by omega) hcell
          (jsSampleD_mem opts (s i) hopts)
      · intro c2 hne
        exact colOf_dropAt_ne g r c c2 _ (fun h => hne h.symm)
    · have hcond : ¬(getN g r c = some Orb.cleared) := by
        rw [hget, hcell]
        intro hcontra
        exact hv (Option.some.inj hcontra)
      unfold dropCell
      rw [if_neg hcond]
      exact ⟨hrect, colStage_step_clean opts _ r _ v hcs hcell hv,
        fun c2 _ => rfl⟩

/-- Processing a duplicate-free list of columns at row `r` advances every
listed column's stage from `r` to `r + 1`. -/
theorem innerFoldAux (opts : List Orb) (s : Nat → Nat) (gm : Grid) {hh ww : Nat}
    (hopts : opts ≠ []) (hrg : Rect gm hh ww) (r : Nat) (hr : r < hh) :
    ∀ cols : List Nat, ∀ st : Grid × Nat,
      (∀ c ∈ cols, c < ww) → cols.Nodup →
      Rect st.1 hh ww →
      (∀ c ∈ cols, ColStage opts (colOf gm c) r (colOf st.1 c)) →
      (∀ c, c < ww → c ∉ cols → ColStage opts (colOf gm c) (r + 1) (colOf st.1 c)) →
      Rect (cols.foldl (fun st2 c => dropCell s opts r c st2) st).1 hh ww
      ∧ ∀ c, c < ww → ColStage opts (colOf gm c) (r + 1)
          (colOf (cols.foldl (fun st2 c => dropCell s opts r c st2) st).1 c) := by
  intro cols
  induction cols with
  | nil =>
    intro st hb hnd hrect hin hout
    exact ⟨hrect, fun c hc => hout c hc (by simp)⟩
  | cons c0 rest ih =>
    intro st hb hnd hrect hin hout
    rw [List.foldl_cons]
    have hc0w : c0 < ww := hb c0 (by simp)
    obtain ⟨hrect2, hcs2, hother⟩ := dropCell_step opts s gm hopts r c0 hr hc0w
      hrg st.1 st.2 hrect (hin c0 (by simp))
    apply ih (dropCell s opts r c0 st)
    · exact fun c hcm => hb c (List.mem_cons_of_mem c0 hcm)
    · exact (List.nodup_cons.mp hnd).2
    · exact hrect2
    · intro c hcm
      have hne : c ≠ c0 := fun h => (List.nodup_cons.mp hnd).1 (h ▸ hcm)
      rw [hother c hne]
      exact hin c (List.mem_cons_of_mem c0 hcm)
    · intro c hcw hcnot
      by_cases hceq : c = c0
      · subst hceq
        exact hcs2
      · rw [hother c hceq]
        exact hout c hcw (fun hmem => by
          rcases List.mem_cons.mp hmem with h | h
          · exact hceq h
          · exact hcnot h)

/-- Processing rows `r0, …, r0 + n - 1` in order advances every column's
stage from `r0` to `r0 + n`. -/
theorem outerFoldAux (opts : List Orb) (s : Nat → Nat) (gm : Grid) {hh ww : Nat}
    (hopts : opts ≠ []) (hrg : Rect gm hh ww) :
    ∀ n r0 : Nat, ∀ st : Grid × Nat, r0 + n ≤ hh →
      Rect st.1 hh ww →
      (∀ c, c < ww → ColStage opts (colOf gm c) r0 (colOf st.1 c)) →
      Rect (((List.range' r0 n).foldl
        (fun st2 r => (List.range ww).foldl
          (fun st3 c => dropCell s opts r c st3) st2) st).1) hh ww
      ∧ ∀ c, c < ww → ColStage opts (colOf gm c) (r0 + n)
          (colOf (((List.range' r0 n).foldl
            (fun st2 r => (List.range ww).foldl
              (fun st3 c => dropCell s opts r c st3) st2) st).1) c) := by
  intro n
  induction n with
  | zero =>
    intro r0 st _ hrect hin
    exact ⟨hrect, fun c hc => hin c hc⟩
  | succ n ihn =>
    intro r0 st hle hrect hin
    rw [List.range'_succ, List.foldl_cons]
    obtain ⟨hrect2, hstage2⟩ := innerFoldAux opts s gm hopts hrg r0 (by omega)
      (List.range ww) st (fun c hc => List.mem_range.mp hc) (List.nodup_range ww)
      hrect (fun c hc => hin c (List.mem_range.mp hc))
      (fun c hcw hcnot => absurd (List.mem_range.mpr hcw) hcnot)
    have hrec := ihn (r0 + 1) _ (by omega) hrect2 hstage2
    rw [show r0 + (n + 1) = r0 + 1 + n by omega]
    exact hrec

/-- The gravity sweep of `evaluate` over a marked grid `gm`: every column
ends as fresh refill tokens (one per sentinel cell, each drawn from the
refill set) followed by the column's surviving tokens in order. -/
theorem dropPass_spec (gm : Grid) {hh ww : Nat} (s : Nat → Nat) (opts : List Orb)
    (i : Nat) (hrg : Rect gm hh ww) (hopts : opts ≠ []) :
    Rect (dropPass gm hh ww s opts i).1 hh ww
    ∧ ∀ c, c < ww → ∃ R : List Orb,
        colOf (dropPass gm hh ww s opts i).1 c
          = R ++ (colOf gm c).filter notClearedB
        ∧ R.length = (colOf gm c).count Orb.cleared
        ∧ ∀ x ∈ R, x ∈ opts := by
  unfold dropPass
  obtain ⟨hrect, hstage⟩ := outerFoldAux opts s gm hopts hrg hh 0 (gm, i)
    (by omega) hrg (fun c _ => colStage_zero opts (colOf gm c))
  simp only [Nat.zero_add] at hstage
  simp only [← List.range_eq_range'] at hrect hstage
  refine ⟨hrect, ?_⟩
  intro c hc
  obtain ⟨R, hcol, hR, hRo⟩ := hstage c hc
  have hlen : (colOf gm c).length = hh := by rw [length_colOf, hrg.1]
  rw [List.take_of_length_le (by omega), List.drop_eq_nil_of_le (by omega),
    List.append_nil] at hcol
  refine ⟨R, hcol, ?_, hRo⟩
  rwa [List.take_of_length_le (by omega)] at hR

theorem rect_setI (g : Grid) {hh ww : Nat} (r c : Int) (v : Orb)
    (hg : Rect g hh ww) : Rect (setI g r c v) hh ww := by
  unfold setI
  split
  · exact rect_setCellN _ _ _ hg
  · exact hg

theorem markGroup_cons (g : Grid) (p : Coord) (rest : List Coord) :
    markGroup g (p :: rest) = markGroup (setI g p.1 p.2 Orb.cleared) rest := rfl

theorem rect_markGroup (g : Grid) {hh ww : Nat} (m : List Coord)
    (hg : Rect g hh ww) : Rect (markGroup g m) hh ww := by
  induction m generalizing g with
  | nil => exact hg
  | cons p rest ih => exact ih _ (rect_setI g p.1 p.2 Orb.cleared hg)

theorem evalMark_fst_cons (g : Grid) (m : List Coord) (ms : List (List Coord)) :
    (evalMark g (m :: ms)).1 = (evalMark (markGroup g m) ms).1 := rfl

theorem rect_evalMark (g : Grid) {hh ww : Nat} (groups : List (List Coord))
    (hg : Rect g hh ww) : Rect (evalMark g groups).1 hh ww := by
  induction groups generalizing g with
  | nil => exact hg
  | cons m ms ih =>
    rw [evalMark_fst_cons]
    exact ih _ (rect_markGroup g m hg)

theorem getN_setI_other (g : Grid) (p : Coord) (v : Orb) (r c : Nat)
    (hne : p ≠ ((r : Int), (c : Int))) :
    getN (setI g p.1 p.2 v) r c = getN g r c := by
  unfold setI
  split
  · case isTrue hpos =>
    apply getN_setCellN_ne
    intro hcontra
    apply hne
    have h1 : p.1 = (r : Int) := by omega
    have h2 : p.2 = (c : Int) := by omega
    exact Prod.ext h1 h2
  · rfl

theorem getN_markGroup_notmem (g : Grid) (m : List Coord) (r c : Nat)
    (hnm : ((r : Int), (c : Int)) ∉ m) :
    getN (markGroup g m) r c = getN g r c := by
  induction m generalizing g with
  | nil => rfl
  | cons p rest ih =>
    rw [markGroup_cons]
    rw [ih _ (fun h => hnm (List.mem_cons_of_mem p h))]
    exact getN_setI_other g p Orb.cleared r c
      (fun h => hnm (h ▸ List.mem_cons_self p rest))

theorem getN_setI_preserves_cleared (g : Grid) (p : Coord) (r c : Nat)
    (h : getN g r c = some Orb.cleared) :
    getN (setI g p.1 p.2 Orb.cleared) r c = some Orb.cleared := by
  unfold setI
  split
  · by_cases heq : p.1.toNat = r ∧ p.2.toNat = c
    · unfold getN at h
      cases hrow : g.get? r with
      | none => rw [hrow] at h; simp at h
      | some row =>
        rw [hrow] at h
        simp only [Option.some_bind] at h
        have hcl : c < row.length := by
          by_contra hge
          rw [List.get?_eq_none.mpr (by omega)] at h
          cases h
        rw [heq.1, heq.2]
        exact getN_setCellN_self g r c Orb.cleared row hrow hcl
    · rw [getN_setCellN_ne _ _ _ _ _ _ heq]
      exact h
  · exact h

theorem getN_markGroup_preserves_cleared (g : Grid) (m : List Coord) (r c : Nat)
    (h : getN g r c = some Orb.cleared) :
    getN (markGroup g m) r c = some Orb.cleared := by
  induction m generalizing g with
  | nil => exact h
  | cons p rest ih =>
    rw [markGroup_cons]
    exact ih _ (getN_setI_preserves_cleared g p r c h)

theorem getN_evalMark_preserves_cleared (g : Grid) (groups : List (List Coord))
    (r c : Nat) (h : getN g r c = some Orb.cleared) :
    getN (evalMark g groups).1 r c = some Orb.cleared := by
  induction groups generalizing g with
  | nil => exact h
  | cons m ms ih =>
    rw [evalMark_fst_cons]
    exact ih _ (getN_markGroup_preserves_cleared g m r c h)

theorem getN_markGroup_mem (g : Grid) {hh ww : Nat} (m : List Coord) (r c : Nat)
    (hg : Rect g hh ww) (hr : r < hh) (hc : c < ww)
    (hmem : ((r : Int), (c : Int)) ∈ m) :
    getN (markGroup g m) r c = some Orb.cleared := by
  induction m generalizing g with
  | nil => simp at hmem
  | cons p rest ih =>
    rw [markGroup_cons]
    rcases List.mem_cons.mp hmem with heq | hmem2
    · have hset : getN (setI g p.1 p.2 Orb.cleared) r c = some Orb.cleared := by
        rw [← heq]
        unfold setI
        rw [if_pos ⟨Int.ofNat_nonneg r, Int.ofNat_nonneg c⟩]
        obtain ⟨hl, hrows⟩ := hg
        cases hrow : g.get? r with
        | none => rw [List.get?_eq_none] at hrow; omega
        | some row =>
          have hcl : c < row.length := by
            rw [hrows row (List.get?_mem hrow)]; omega
          exact getN_setCellN_self g r c Orb.cleared row hrow hcl
      exact getN_markGroup_preserves_cleared _ rest r c hset
    · exact ih _ (rect_setI g p.1 p.2 Orb.cleared hg) hmem2

theorem getN_evalMark_notmem (g : Grid) (groups : List (List Coord)) (r c : Nat)
    (hnm : ∀ m ∈ groups, ((r : Int), (c : Int)) ∉ m) :
    getN (evalMark g groups).1 r c = getN g r c := by
  induction groups generalizing g with
  | nil => rfl
  | cons m ms ih =>
    rw [evalMark_fst_cons]
    rw [ih _ (fun m2 hm2 => hnm m2 (List.mem_cons_of_mem m hm2))]
    exact getN_markGroup_notmem g m r c (hnm m (List.mem_cons_self m ms))

theorem getN_evalMark_mem (g : Grid) {hh ww : Nat} (groups : List (List Coord))
    (r c : Nat) (hg : Rect g hh ww) (hr : r < hh) (hc : c < ww)
    (hmem : ∃ m ∈ groups, ((r : Int), (c : Int)) ∈ m) :
    getN (evalMark g groups).1 r c = some Orb.cleared := by
  induction groups generalizing g with
  | nil => simp at hmem
  | cons m ms ih =>
    rw [evalMark_fst_cons]
    obtain ⟨m2, hm2mem, hm2⟩ := hmem
    rcases List.mem_cons.mp hm2mem with heq | hrest
    · exact getN_evalMark_preserves_cleared _ ms r c
        (getN_markGroup_mem g m r c hg hr hc (heq ▸ hm2))
    · exact ih _ (rect_markGroup g m hg) ⟨m2, hrest, hm2⟩

/-- C2: for pairwise-disjoint in-bounds match groups on a sentinel-free
rectangular grid, `evaluate`'s single sweep drains every cleared cell (no
sentinel survives, stacked or not); the cells marked by the first phase are
exactly the group members; and every column ends as freshly sampled refill
tokens (one per cleared cell, each from the allowed refill set) on top of
the surviving tokens in their original order. -/
theorem claim2_evaluate_drains_and_refills (g : Grid) (hh ww : Nat)
    (groups : List (List Coord)) (opts : List Orb) (s : Nat → Nat) (i : Nat)
    (hg : Rect g hh ww)
    (hin : ∀ m ∈ groups, ∀ p ∈ m,
      0 ≤ p.1 ∧ p.1 < (hh : Int) ∧ 0 ≤ p.2 ∧ p.2 < (ww : Int))
    (hdisj : groups.Pairwise fun m1 m2 => ∀ p ∈ m1, p ∉ m2)
    (hclean : Orb.cleared ∉ g.flatten)
    (hopts : opts ≠ []) (hoptsX : Orb.cleared ∉ opts) :
    (∀ r, r < hh → ∀ c, c < ww →
        getN (evaluateM g hh ww groups opts s i).1 r c ≠ some Orb.cleared)
    ∧ (∀ r, r < hh → ∀ c, c < ww →
        (getN (evalMark g groups).1 r c = some Orb.cleared
          ↔ ∃ m ∈ groups, ((r : Int), (c : Int)) ∈ m))
    ∧ (∀ c, c < ww → ∃ R : List Orb,
        colOf (evaluateM g hh ww groups opts s i).1 c
          = R ++ (colOf (evalMark g groups).1 c).filter notClearedB
        ∧ R.length = (colOf (evalMark g groups).1 c).count Orb.cleared
        ∧ ∀ x ∈ R, x ∈ opts) := by
  have hgm : Rect (evalMark g groups).1 hh ww := rect_evalMark g groups hg
  have hEfst : (evaluateM g hh ww groups opts s i).1
      = (dropPass (evalMark g groups).1 hh ww s opts i).1 := rfl
  obtain ⟨hrect2, hcols⟩ := dropPass_spec (evalMark g groups).1 s opts i hgm hopts
  refine ⟨?_, ?_, ?_⟩
  · intro r hr c hc hcontra
    rw [hEfst] at hcontra
    have hrows2 : ∀ row ∈ (dropPass (evalMark g groups).1 hh ww s opts i).1,
        c < row.length := fun row hrow => by rw [hrect2.2 row hrow]; omega
    rw [getN_eq_colOf_get? _ r c hrows2] at hcontra
    have hmemX := List.get?_mem hcontra
    obtain ⟨R, hcol, hR, hRo⟩ := hcols c hc
    rw [hcol] at hmemX
    rcases List.mem_append.mp hmemX with h | h
    · exact hoptsX (hRo _ h)
    · have hfil := List.of_mem_filter h
      simp [notClearedB] at hfil
  · intro r hr c hc
    constructor
    · intro hX
      by_contra hno
      push_neg at hno
      rw [getN_evalMark_notmem g groups r c hno] at hX
      exact hclean (getN_mem_flatten g r c _ hX)
    · exact getN_evalMark_mem g groups r c hg hr hc
  · intro c hc
    rw [hEfst]
    exact hcols c hc

/-- The grid and match group the C2 witness evaluates. -/
def wGridE : Grid :=
  [[Orb.tok 0, Orb.tok 0, Orb.tok 0, Orb.tok 1],
   [Orb.tok 1, Orb.tok 0, Orb.tok 1, Orb.tok 0],
   [Orb.tok 0, Orb.tok 1, Orb.tok 0, Orb.tok 1],
   [Orb.tok 1, Orb.tok 0, Orb.tok 1, Orb.tok 0]]

def wGroupsE : List (List Coord) := [[(0, 0), (0, 1), (0, 2)]]

theorem claim2_evaluate_drains_and_refills_witness :
    (∀ r, r < 4 → ∀ c, c < 4 →
        getN (evaluateM wGridE 4 4 wGroupsE [Orb.tok 0, Orb.tok 1]
          (fun _ => 1) 0).1 r c ≠ some Orb.cleared)
    ∧ (∀ r, r < 4 → ∀ c, c < 4 →
        (getN (evalMark wGridE wGroupsE).1 r c = some Orb.cleared
          ↔ ∃ m ∈ wGroupsE, ((r : Int), (c : Int)) ∈ m))
    ∧ (∀ c, c < 4 → ∃ R : List Orb,
        colOf (evaluateM wGridE 4 4 wGroupsE [Orb.tok 0, Orb.tok 1]
            (fun _ => 1) 0).1 c
          = R ++ (colOf (evalMark wGridE wGroupsE).1 c).filter notClearedB
        ∧ R.length = (colOf (evalMark wGridE wGroupsE).1 c).count Orb.cleared
        ∧ ∀ x ∈ R, x ∈ [Orb.tok 0, Orb.tok 1]) :=
  claim2_evaluate_drains_and_refills wGridE 4 4 wGroupsE [Orb.tok 0, Orb.tok 1]
    (fun _ => 1) 0 (by decide) (by decide) (by decide) (by decide) (by decide)
    (by decide)

/-- C8: calling `evaluate` with an empty (or absent, which lodash iterates
identically) match list on a match-free grid with no sentinel cells returns
an empty event list and leaves every cell unchanged — a benign no-op. -/
theorem claim8_evaluate_empty_noop (g : Grid) (hh ww : Nat) (opts : List Orb)
    (s : Nat → Nat) (i : Nat) (hno : hasMatch g = false)
    (hclean : Orb.cleared ∉ g.flatten) :
    evaluateM g hh ww [] opts s i = (g, [], i) := by
  unfold evaluateM evalMark
  simp [dropPass_noop g hh ww s opts i hclean]

theorem claim8_evaluate_empty_noop_witness :
    evaluateM [[Orb.tok 0, Orb.tok 1, Orb.tok 0], [Orb.tok 1, Orb.tok 0, Orb.tok 1],
      [Orb.tok 0, Orb.tok 1, Orb.tok 0]] 3 3 [] [Orb.tok 0, Orb.tok 1] (fun _ => 0) 0
      = ([[Orb.tok 0, Orb.tok 1, Orb.tok 0], [Orb.tok 1, Orb.tok 0, Orb.tok 1],
          [Orb.tok 0, Orb.tok 1, Orb.tok 0]], [], 0) :=
  claim8_evaluate_empty_noop _ 3 3 _ _ 0 (by decide) (by decide)

/-- C3: a player-initiated swap whose resulting grid has no structural match
reverts to the exact pre-swap grid: the operation is observationally a
no-op on the grid, with no leaked sentinel values. -/
theorem claim3_player_swap_reverts (g : Grid) (hh ww : Nat) (p q : Nat × Nat)
    (hg : Rect g hh ww) (hp1 : p.1 < hh) (hp2 : p.2 < ww)
    (hq1 : q.1 < hh) (hq2 : q.2 < ww)
    (hnone : findMatches (swapGridN g p q) = []) :
    swapM g p q true = g := by
  unfold swapM
  simp [hasMatch, hnone]

theorem claim3_player_swap_reverts_witness :
    swapM [[Orb.tok 0, Orb.tok 1], [Orb.tok 1, Orb.tok 0]] (0, 0) (0, 1) true
      = [[Orb.tok 0, Orb.tok 1], [Orb.tok 1, Orb.tok 0]] :=
  claim3_player_swap_reverts _ 2 2 _ _ (by decide) (by decide) (by decide)
    (by decide) (by decide) (by decide)

/-- C10: every swap with in-bounds coordinates — player or internal,
committed or reverted — preserves the grid's dimensions and the multiset of
tokens on the board. -/
theorem claim10_swap_preserves_shape_and_tokens (g : Grid) (hh ww : Nat)
    (p q : Nat × Nat) (player : Bool) (hg : Rect g hh ww)
    (hp1 : p.1 < hh) (hp2 : p.2 < ww) (hq1 : q.1 < hh) (hq2 : q.2 < ww) :
    Rect (swapM g p q player) hh ww ∧ (swapM g p q player).flatten.Perm g.flatten := by
  have hmain : Rect (swapGridN g p q) hh ww ∧
      (swapGridN g p q).flatten.Perm g.flatten := by
    constructor
    · exact rect_setCellN _ _ _ (rect_setCellN _ _ _ hg)
    · apply List.perm_iff_count.mpr
      intro x
      obtain ⟨hl, hrows⟩ := hg
      cases hrowp : g.get? p.1 with
      | none => rw [List.get?_eq_none] at hrowp; omega
      | some rowp =>
      have hlenp : rowp.length = ww := hrows rowp (List.get?_mem hrowp)
      have hg1 : Rect (setCellN g p.1 p.2 (getDN g q.1 q.2)) hh ww :=
        rect_setCellN _ _ _ ⟨hl, hrows⟩
      obtain ⟨hl1, hrows1⟩ := hg1
      cases hrowq : (setCellN g p.1 p.2 (getDN g q.1 q.2)).get? q.1 with
      | none => rw [List.get?_eq_none] at hrowq; omega
      | some rowq =>
      have hlenq : rowq.length = ww := hrows1 rowq (List.get?_mem hrowq)
      have h1 := count_flatten_setCellN g p.1 p.2 (getDN g q.1 q.2) x rowp hrowp
        (by omega)
      have h2 := count_flatten_setCellN (setCellN g p.1 p.2 (getDN g q.1 q.2))
        q.1 q.2 (getDN g p.1 p.2) x rowq hrowq (by omega)
      have hgoal : swapGridN g p q
          = setCellN (setCellN g p.1 p.2 (getDN g q.1 q.2)) q.1 q.2
              (getDN g p.1 p.2) := rfl
      rw [hgoal]
      by_cases hpq : p.1 = q.1 ∧ p.2 = q.2
      · have hsame : getDN g p.1 p.2 = getDN g q.1 q.2 := by
          rw [hpq.1, hpq.2]
        have hself : getDN (setCellN g p.1 p.2 (getDN g q.1 q.2)) q.1 q.2
            = getDN g q.1 q.2 := by
          rw [← hpq.1, ← hpq.2]
          exact getDN_set_self g p.1 p.2 _ ⟨hl, hrows⟩ (by omega) (by omega)
        rw [hself] at h2
        rw [hsame] at h1 h2 ⊢
        omega
      · have hne : getDN (setCellN g p.1 p.2 (getDN g q.1 q.2)) q.1 q.2
            = getDN g q.1 q.2 :=
          getDN_setCellN_ne g p.1 p.2 q.1 q.2 _ hpq
        rw [hne] at h2
        omega
  unfold swapM
  by_cases hrev : (player && !hasMatch (swapGridN g p q)) = true
  · simp only [hrev, if_pos]
    exact ⟨⟨hg.1, hg.2⟩, List.Perm.refl _⟩
  · simp only [hrev, if_neg, Bool.false_eq_true, not_false_iff]
    exact hmain

/-- `unmatch` only ever returns through its loop guard, so a returned grid
has no match. -/
theorem unmatchLoop_post (height width : Nat) (s : Nat → Nat) :
    ∀ fuel g i g2 i2, unmatchLoop height width s fuel g i = some (g2, i2) →
      hasMatch g2 = false := by
  intro fuel
  induction fuel with
  | zero => intro g i g2 i2 h; simp [unmatchLoop] at h
  | succ fuel ih =>
    intro g i g2 i2 h
    unfold unmatchLoop at h
    by_cases hm : hasMatch g = true
    · rw [if_pos hm] at h
      cases hb : unmatchBody g height width s fuel i with
      | none => rw [hb] at h; simp at h
      | some gi => rw [hb] at h; exact ih gi.1 gi.2 g2 i2 h
    · rw [if_neg hm] at h
      simp only [Option.some.injEq, Prod.mk.injEq] at h
      rw [← h.1]
      exact Bool.not_eq_true _ ▸ (Bool.eq_false_iff.mpr hm)

/-- `shuffle` only returns once `unmatch` has succeeded and the refreshed
grid no longer needs a shuffle. -/
theorem shuffleLoop_post (height width : Nat) (s : Nat → Nat) :
    ∀ fuel g i g2 i2, shuffleLoop height width s fuel g i = some (g2, i2) →
      hasMatch g2 = false ∧ hasPotentialMatch g2 = true := by
  intro fuel
  induction fuel with
  | zero => intro g i g2 i2 h; simp [shuffleLoop] at h
  | succ fuel ih =>
    intro g i g2 i2 h
    unfold shuffleLoop at h
    simp only [] at h
    cases hu : unmatchLoop height width s fuel (shuffleRowsM g s i).1 (shuffleRowsM g s i).2 with
    | none => rw [hu] at h; simp at h
    | some gi =>
      rw [hu] at h
      simp only at h
      by_cases hn : needsShuffle gi.1 = true
      · rw [if_pos hn] at h
        exact ih gi.1 gi.2 g2 i2 h
      · rw [if_neg hn] at h
        simp only [Option.some.injEq, Prod.mk.injEq] at h
        have h1 : hasMatch gi.1 = false :=
          unmatchLoop_post height width s fuel _ _ gi.1 gi.2 (by rw [hu])
        have h2 : hasPotentialMatch gi.1 = true := by
          have := Bool.eq_false_iff.mpr hn
          simpa [needsShuffle] using this
        subst h
        exact ⟨h1, h2⟩

/-! ## Window-scanner lemmas (claims C4 and C6) -/

theorem foldl_max_init_le : ∀ (l : List Nat) (a : Nat), a ≤ l.foldl Nat.max a
  | [], a => le_refl a
  | x :: xs, a => le_trans (Nat.le_max_left a x) (foldl_max_init_le xs (Nat.max a x))

theorem le_foldl_max : ∀ (l : List Nat) (a x : Nat), x ∈ l → x ≤ l.foldl Nat.max a := by
  intro l
  induction l with
  | nil => intro a x hx; simp at hx
  | cons y ys ih =>
    intro a x hx
    simp only [List.mem_cons] at hx
    rcases hx with h | h
    · subst h; exact le_trans (Nat.le_max_right a x) (foldl_max_init_le ys _)
    · exact ih _ x h

/-- A value occurring at least three times in a row makes the single-row
wide-scan test fire. -/
theorem hasMatchInSingleRow_of_count (row : List Orb) (v : Orb)
    (hmem : v ∈ row) (hcount : 3 ≤ row.count v) :
    hasMatchInSingleRow row = true := by
  unfold hasMatchInSingleRow
  apply decide_eq_true
  have hv : v ∈ row.dedup := List.mem_dedup.mpr hmem
  have hmm : row.count v ∈ row.dedup.map fun u => row.count u :=
    List.mem_map_of_mem _ hv
  have := le_foldl_max _ 0 _ hmm
  omega

theorem three_le_count_of_adjacent (l : List Orb) (j : Nat) (v : Orb)
    (h0 : l.get? j = some v) (h1 : l.get? (j + 1) = some v)
    (h2 : l.get? (j + 2) = some v) : 3 ≤ l.count v := by
  obtain ⟨hl0, hg0⟩ := List.get?_eq_some.mp h0
  obtain ⟨hl1, hg1⟩ := List.get?_eq_some.mp h1
  obtain ⟨hl2, hg2⟩ := List.get?_eq_some.mp h2
  have e0 : l.drop j = v :: l.drop (j + 1) := by
    rw [List.drop_eq_get_cons hl0, hg0]
  have e1 : l.drop (j + 1) = v :: l.drop (j + 2) := by
    rw [List.drop_eq_get_cons hl1, hg1]
  have e2 : l.drop (j + 2) = v :: l.drop (j + 3) := by
    rw [List.drop_eq_get_cons hl2, hg2]
  have hsplit : l.count v = (l.take j).count v + (l.drop j).count v := by
    conv_lhs => rw [← List.take_append_drop j l]
    rw [List.count_append]
  rw [hsplit, e0, e1, e2]
  simp [List.count_cons]
  omega

theorem mem_jsRange0 {k : Nat} {e : Int} (h : (k : Int) < e) :
    (k : Int) ∈ jsRange0 e := by
  have he : 0 ≤ e := le_of_lt (lt_of_le_of_lt (Int.ofNat_nonneg k) h)
  unfold jsRange0
  rw [if_pos he]
  have hk : k ∈ List.range e.toNat := List.mem_range.mpr (by omega)
  exact List.mem_map_of_mem _ hk

theorem mem_jsRange0_elim {e : Int} (he : 0 ≤ e) {x : Int} (hx : x ∈ jsRange0 e) :
    ∃ k : Nat, x = (k : Int) ∧ (k : Int) < e := by
  unfold jsRange0 at hx
  rw [if_pos he] at hx
  obtain ⟨k, hk, hkx⟩ := List.mem_map.mp hx
  refine ⟨k, hkx.symm, ?_⟩
  have := List.mem_range.mp hk
  omega

/-- `slice` at natural indices is plain `drop`/`take`. -/
theorem jsSlice_coe {α : Type} (l : List α) (b e : Nat) :
    jsSlice l (b : Int) (e : Int) = (l.drop b).take (e - b) := by
  simp only [jsSlice]
  rw [if_neg (by omega : ¬((b : Int) < 0)), if_neg (by omega : ¬((e : Int) < 0))]
  by_cases hb : b ≤ l.length
  · have hbm : min (b : Int) (l.length : Int) = (b : Int) := by
      rw [min_eq_left]; omega
    by_cases he : e ≤ l.length
    · have hem : min (e : Int) (l.length : Int) = (e : Int) := by
        rw [min_eq_left]; omega
      rw [hbm, hem, show ((b : Int)).toNat = b by omega,
        show ((e : Int) - (b : Int)).toNat = e - b by omega]
    · have hem : min (e : Int) (l.length : Int) = (l.length : Int) := by
        rw [min_eq_right]; omega
      rw [hbm, hem, show ((b : Int)).toNat = b by omega,
        show ((l.length : Int) - (b : Int)).toNat = l.length - b by omega]
      rw [List.take_of_length_le (by rw [List.length_drop]),
        List.take_of_length_le (by rw [List.length_drop]; omega)]
  · have hbm : min (b : Int) (l.length : Int) = (l.length : Int) := by
      rw [min_eq_right]; omega
    have hdrops : l.drop b = [] := List.drop_eq_nil_of_le (by omega)
    by_cases he : e ≤ l.length
    · have hem : min (e : Int) (l.length : Int) = (e : Int) := by
        rw [min_eq_left]; omega
      rw [hbm, hem, show ((l.length : Int)).toNat = l.length by omega,
        List.drop_length, hdrops]
      simp
    · have hem : min (e : Int) (l.length : Int) = (l.length : Int) := by
        rw [min_eq_right]; omega
      rw [hbm, hem, show ((l.length : Int)).toNat = l.length by omega,
        List.drop_length, hdrops]
      simp

theorem chunkRows_coe (g : Grid) (cw ch hi wi : Nat) :
    chunkRows g cw ch (hi : Int) (wi : Int)
      = ((g.drop hi).take ch).map fun row => (row.drop wi).take cw := by
  unfold chunkRows
  have h1 : (hi : Int) + (ch : Nat) = ((hi + ch : Nat) : Int) := by push_cast; ring
  rw [h1, jsSlice_coe]
  rw [show hi + ch - hi = ch by omega]
  apply List.map_congr_left
  intro row _
  have h2 : (wi : Int) + (cw : Nat) = ((wi + cw : Nat) : Int) := by push_cast; ring
  rw [h2, jsSlice_coe]
  rw [show wi + cw - wi = cw by omega]

theorem chunk_row_get (g : Grid) (cw ch hi wi r : Nat) (row : List Orb)
    (hr1 : hi ≤ r) (hr2 : r < hi + ch) (hrow : g.get? r = some row) :
    (chunkRows g cw ch (hi : Int) (wi : Int)).get? (r - hi)
      = some ((row.drop wi).take cw) := by
  rw [chunkRows_coe, List.get?_map]
  have hrg : ((g.drop hi).take ch).get? (r - hi) = some row := by
    rw [List.get?_take (by omega), List.get?_drop,
      show hi + (r - hi) = r by omega]
    exact hrow
  rw [hrg]
  rfl

theorem chunk_mem_iterchunksPlain (g : Grid) (cw ch hi wi : Nat)
    (hhi : (hi : Int) < (g.length : Int) - ch + 1)
    (hwi : (wi : Int) < ((g.headD []).length : Int) - cw + 1) :
    chunkRows g cw ch (hi : Int) (wi : Int) ∈ iterchunksPlain g cw ch := by
  unfold iterchunksPlain
  exact List.mem_flatMap.mpr
    ⟨(hi : Int), mem_jsRange0 hhi, List.mem_map.mpr ⟨(wi : Int), mem_jsRange0 hwi, rfl⟩⟩

theorem headD_length (g : Grid) {hh ww : Nat} (hg : Rect g hh ww) (h1 : 1 ≤ hh) :
    (g.headD []).length = ww := by
  obtain ⟨hl, hrows⟩ := hg
  cases g with
  | nil => simp at hl; omega
  | cons r0 rest => exact hrows r0 (by simp)

theorem rect_transposeG (g : Grid) {hh ww : Nat} (hg : Rect g hh ww) (h1 : 1 ≤ hh) :
    Rect (transposeG g) ww hh := by
  have hw := headD_length g hg h1
  obtain ⟨hl, hrows⟩ := hg
  constructor
  · simp only [transposeG, List.length_map, List.length_range]
    exact hw
  · intro row hrow
    simp only [transposeG, List.mem_map] at hrow
    obtain ⟨c, _, rfl⟩ := hrow
    simp [colOf, hl]

theorem getN_transposeG (g : Grid) {hh ww : Nat} (hg : Rect g hh ww) (r c : Nat)
    (hr : r < hh) (hc : c < ww) : getN (transposeG g) c r = getN g r c := by
  have h1 : 1 ≤ hh := by omega
  have hw := headD_length g hg h1
  obtain ⟨hl, hrows⟩ := hg
  unfold transposeG getN
  rw [hw, List.get?_map, List.get?_range hc]
  simp only [Option.map_some', Option.some_bind]
  unfold colOf
  rw [List.get?_map]
  cases hrow : g.get? r with
  | none => rw [List.get?_eq_none] at hrow; omega
  | some row =>
    simp only [Option.map_some', Option.some_bind]
    have hrl : row.length = ww := hrows row (List.get?_mem hrow)
    cases hcel : row.get? c with
    | none => rw [List.get?_eq_none] at hcel; omega
    | some y =>
      rw [List.getD_eq_getElem?_getD, ← List.get?_eq_getElem?, hcel]
      rfl

/-- A horizontal run of three equal cells is caught by some single-row test
of some `4 × 2` chunk, provided the grid is at least 4 wide and 2 tall. -/
theorem wideScan_hits_run (g : Grid) {hh ww : Nat} (hg : Rect g hh ww)
    (hh2 : 2 ≤ hh) (w4 : 4 ≤ ww) (r c : Nat) (v : Orb) (hr : r < hh)
    (hc : c + 2 < ww) (h0 : getN g r c = some v) (h1 : getN g r (c + 1) = some v)
    (h2 : getN g r (c + 2) = some v) :
    ∃ chunk ∈ iterchunksPlain g 4 2, ∃ row ∈ chunk, hasMatchInSingleRow row = true := by
  obtain ⟨hl, hrows⟩ := hg
  cases hrowq : g.get? r with
  | none => rw [List.get?_eq_none] at hrowq; omega
  | some rowg =>
  have hrlen : rowg.length = ww := hrows rowg (List.get?_mem hrowq)
  have hw : (g.headD []).length = ww := headD_length g ⟨hl, hrows⟩ (by omega)
  have hg0 : rowg.get? c = some v := by
    unfold getN at h0; rw [hrowq] at h0; simpa using h0
  have hg1 : rowg.get? (c + 1) = some v := by
    unfold getN at h1; rw [hrowq] at h1; simpa using h1
  have hg2 : rowg.get? (c + 2) = some v := by
    unfold getN at h2; rw [hrowq] at h2; simpa using h2
  refine ⟨chunkRows g 4 2 (min r (hh - 2) : Nat) (min c (ww - 4) : Nat),
    chunk_mem_iterchunksPlain g 4 2 _ _ (by rw [hl]; push_cast; omega)
      (by rw [hw]; push_cast; omega),
    (rowg.drop (min c (ww - 4))).take 4, ?_, ?_⟩
  · exact List.get?_mem
      (chunk_row_get g 4 2 (min r (hh - 2)) (min c (ww - 4)) r rowg
        (by omega) (by omega) hrowq)
  · have hcw : c - min c (ww - 4) ≤ 1 := by omega
    have hgets : ∀ t : Nat, t ≤ 2 →
        ((rowg.drop (min c (ww - 4))).take 4).get? (c - min c (ww - 4) + t)
          = some v := by
      intro t ht
      rw [List.get?_take (by omega), List.get?_drop,
        show min c (ww - 4) + (c - min c (ww - 4) + t) = c + t by omega]
      match t, ht with
      | 0, _ => exact hg0
      | 1, _ => exact hg1
      | 2, _ => exact hg2
    have hvmem : v ∈ (rowg.drop (min c (ww - 4))).take 4 :=
      List.get?_mem (hgets 0 (by omega))
    refine hasMatchInSingleRow_of_count _ v hvmem ?_
    exact three_le_count_of_adjacent _ (c - min c (ww - 4)) v
      (hgets 0 (by omega)) (hgets 1 (by omega)) (hgets 2 (by omega))

theorem pm_true_of_flag (g : Grid) (chunk : List (List Orb)) (row : List Orb)
    (hchunk : chunk ∈ iterchunksDefault g) (hrow : row ∈ chunk)
    (hflag : hasMatchInSingleRow row = true) : hasPotentialMatch g = true := by
  unfold hasPotentialMatch
  have hany : (iterchunksDefault g).flatten.any hasMatchInSingleRow = true :=
    List.any_eq_true.mpr ⟨row, List.mem_flatten.mpr ⟨chunk, hchunk, hrow⟩, hflag⟩
  simp [hany]

/-- C4 amended: the wide-scan heuristic has no false negatives on straight
runs of 3 when both dimensions are at least 4 (the original claim's bound of
3 fails: a 3-wide or 3-tall grid produces no `4 × 2` chunk in the run's
orientation, see the counterexample). -/
theorem claim4_amended_no_false_negatives (g : Grid) (hh ww : Nat)
    (hg : Rect g hh ww) (h4 : 4 ≤ hh) (w4 : 4 ≤ ww)
    (hrun : (∃ r c v, r < hh ∧ c + 2 < ww ∧ getN g r c = some v ∧
               getN g r (c + 1) = some v ∧ getN g r (c + 2) = some v)
          ∨ (∃ r c v, r + 2 < hh ∧ c < ww ∧ getN g r c = some v ∧
               getN g (r + 1) c = some v ∧ getN g (r + 2) c = some v)) :
    hasPotentialMatch g = true := by
  rcases hrun with ⟨r, c, v, hr, hc, h0, h1, h2⟩ | ⟨r, c, v, hr, hc, h0, h1, h2⟩
  · obtain ⟨chunk, hchunk, row, hrow, hflag⟩ :=
      wideScan_hits_run g hg (by omega) w4 r c v hr hc h0 h1 h2
    exact pm_true_of_flag g chunk row (List.mem_append_left _ hchunk) hrow hflag
  · have hgt : Rect (transposeG g) ww hh := rect_transposeG g hg (by omega)
    have ht0 : getN (transposeG g) c r = some v := by
      rw [getN_transposeG g hg r c (by omega) hc]; exact h0
    have ht1 : getN (transposeG g) c (r + 1) = some v := by
      rw [getN_transposeG g hg (r + 1) c (by omega) hc]; exact h1
    have ht2 : getN (transposeG g) c (r + 2) = some v := by
      rw [getN_transposeG g hg (r + 2) c (by omega) hc]; exact h2
    obtain ⟨chunk, hchunk, row, hrow, hflag⟩ :=
      wideScan_hits_run (transposeG g) hgt (by omega) h4 c r v hc (by omega)
        ht0 ht1 ht2
    exact pm_true_of_flag g chunk row (List.mem_append_right _ hchunk) hrow hflag

theorem claim4_amended_no_false_negatives_witness :
    hasPotentialMatch
      [[Orb.tok 0, Orb.tok 0, Orb.tok 0, Orb.tok 1],
       [Orb.tok 1, Orb.tok 1, Orb.tok 0, Orb.tok 0],
       [Orb.tok 0, Orb.tok 1, Orb.tok 1, Orb.tok 0],
       [Orb.tok 1, Orb.tok 0, Orb.tok 1, Orb.tok 1]] = true :=
  claim4_amended_no_false_negatives _ 4 4 (by decide) (by decide) (by decide)
    (Or.inl ⟨0, 0, Orb.tok 0, by omega, by omega, by decide, by decide, by decide⟩)

/-- C4 counterexample: a 3 × 3 grid made of one token has a real run of 3 in
every row and column, but the wide scan produces no `4 × 2` chunk at all on
a 3-wide, 3-tall grid, so `hasPotentialMatch` returns false — the heuristic
does have false negatives at the claim's minimum dimensions. -/
theorem claim4_counterexample_3x3_run_missed :
    hasPotentialMatch
      [[Orb.tok 0, Orb.tok 0, Orb.tok 0],
       [Orb.tok 0, Orb.tok 0, Orb.tok 0],
       [Orb.tok 0, Orb.tok 0, Orb.tok 0]] = false
    ∧ Rect [[Orb.tok 0, Orb.tok 0, Orb.tok 0],
       [Orb.tok 0, Orb.tok 0, Orb.tok 0],
       [Orb.tok 0, Orb.tok 0, Orb.tok 0]] 3 3
    ∧ getN [[Orb.tok 0, Orb.tok 0, Orb.tok 0],
       [Orb.tok 0, Orb.tok 0, Orb.tok 0],
       [Orb.tok 0, Orb.tok 0, Orb.tok 0]] 0 0 = some (Orb.tok 0)
    ∧ getN [[Orb.tok 0, Orb.tok 0, Orb.tok 0],
       [Orb.tok 0, Orb.tok 0, Orb.tok 0],
       [Orb.tok 0, Orb.tok 0, Orb.tok 0]] 0 1 = some (Orb.tok 0)
    ∧ getN [[Orb.tok 0, Orb.tok 0, Orb.tok 0],
       [Orb.tok 0, Orb.tok 0, Orb.tok 0],
       [Orb.tok 0, Orb.tok 0, Orb.tok 0]] 0 2 = some (Orb.tok 0) := by
  decide

/-! ## Structural-enumeration lemmas (claim C6) -/

theorem dedup_triple_iff (a b c : Orb) :
    ([a, b, c].dedup.length = 1) ↔ (a = b ∧ a = c) := by
  by_cases h3 : b = c
  · subst h3
    by_cases h1 : a = b
    · subst h1
      simp [List.dedup_cons_of_mem]
    · rw [List.dedup_cons_of_not_mem (by simp [List.dedup_cons_of_mem, h1])]
      simp [List.dedup_cons_of_mem, h1]
  · have hbc : [b, c].dedup = [b, c] := by
      rw [List.dedup_cons_of_not_mem (by simp [h3])]
      simp
    by_cases h1 : a ∈ ([b, c] : List Orb)
    · rw [List.dedup_cons_of_mem h1, hbc]
      constructor
      · intro h; simp at h
      · rintro ⟨rfl, rfl⟩; exact absurd rfl h3
    · rw [List.dedup_cons_of_not_mem h1, hbc]
      constructor
      · intro h; simp at h
      · rintro ⟨rfl, rfl⟩; exact absurd rfl h3

theorem take3_eq (rowg : List Orb) (wi : Nat) (x0 x1 x2 : Orb)
    (h0 : rowg.get? wi = some x0) (h1 : rowg.get? (wi + 1) = some x1)
    (h2 : rowg.get? (wi + 2) = some x2) :
    (rowg.drop wi).take 3 = [x0, x1, x2] := by
  obtain ⟨hl0, hg0⟩ := List.get?_eq_some.mp h0
  obtain ⟨hl1, hg1⟩ := List.get?_eq_some.mp h1
  obtain ⟨hl2, hg2⟩ := List.get?_eq_some.mp h2
  rw [List.drop_eq_get_cons hl0, hg0, List.drop_eq_get_cons hl1, hg1,
    List.drop_eq_get_cons hl2, hg2]
  rfl

theorem chunkRows31_head (g : Grid) (hi wi : Nat) (rowg : List Orb)
    (hrow : g.get? hi = some rowg) :
    (chunkRows g 3 1 (hi : Int) (wi : Int)).headD [] = (rowg.drop wi).take 3 := by
  rw [chunkRows_coe]
  obtain ⟨hlt, hget⟩ := List.get?_eq_some.mp hrow
  rw [List.drop_eq_get_cons hlt, hget]
  rfl

theorem mem_iterchunksPos_intro (g : Grid) (cw ch : Nat) (tr : Bool) (hi wi : Nat)
    (hhi : (hi : Int) < (g.length : Int) - ch + 1)
    (hwi : (wi : Int) < ((g.headD []).length : Int) - cw + 1) :
    ({ rows := chunkRows g cw ch (hi : Int) (wi : Int)
       first := if tr then ((wi : Int), (hi : Int)) else ((hi : Int), (wi : Int))
       last := if tr then ((wi : Int) + cw - 1, (hi : Int) + ch - 1)
               else ((hi : Int) + ch - 1, (wi : Int) + cw - 1) } : PosChunk)
      ∈ iterchunksPos g cw ch tr := by
  unfold iterchunksPos
  refine List.mem_flatMap.mpr ⟨(hi : Int), mem_jsRange0 hhi, ?_⟩
  refine List.mem_map.mpr ⟨(wi : Int), mem_jsRange0 hwi, ?_⟩
  cases tr <;> rfl

theorem mem_iterchunksPos_elim (g : Grid) (cw ch : Nat) (tr : Bool)
    (he1 : 0 ≤ (g.length : Int) - ch + 1)
    (he2 : 0 ≤ ((g.headD []).length : Int) - cw + 1)
    {ck : PosChunk} (hck : ck ∈ iterchunksPos g cw ch tr) :
    ∃ hi wi : Nat, (hi : Int) < (g.length : Int) - ch + 1
      ∧ (wi : Int) < ((g.headD []).length : Int) - cw + 1
      ∧ ck = { rows := chunkRows g cw ch (hi : Int) (wi : Int)
               first := if tr then ((wi : Int), (hi : Int)) else ((hi : Int), (wi : Int))
               last := if tr then ((wi : Int) + cw - 1, (hi : Int) + ch - 1)
                       else ((hi : Int) + ch - 1, (wi : Int) + cw - 1) } := by
  unfold iterchunksPos at hck
  obtain ⟨hiI, hhiI, hinner⟩ := List.mem_flatMap.mp hck
  obtain ⟨wiI, hwiI, hckeq⟩ := List.mem_map.mp hinner
  obtain ⟨hi, rfl, hhi⟩ := mem_jsRange0_elim he1 hhiI
  obtain ⟨wi, rfl, hwi⟩ := mem_jsRange0_elim he2 hwiI
  refine ⟨hi, wi, hhi, hwi, ?_⟩
  rw [← hckeq]

/-- One scan half of `findMatches` only emits windows that really are three
equal consecutive cells of the scanned grid, with the group coordinates
stepped from the (possibly reversed) anchor. -/
theorem findTriplesHalf_sound (G : Grid) (H W : Nat) (tr : Bool)
    (hg : Rect G H W) (h1 : 1 ≤ H) (w2 : 2 ≤ W) :
    ∀ m ∈ findTriplesHalf (iterchunksPos G 3 1 tr) tr,
      ∃ hi wi : Nat, ∃ v : Orb, hi < H ∧ wi + 2 < W ∧
        getN G hi wi = some v ∧ getN G hi (wi + 1) = some v ∧
        getN G hi (wi + 2) = some v ∧
        m = (if tr then [((wi : Int), (hi : Int)), ((wi : Int) + 1, (hi : Int)),
                ((wi : Int) + 2, (hi : Int))]
             else [((hi : Int), (wi : Int)), ((hi : Int), (wi : Int) + 1),
                ((hi : Int), (wi : Int) + 2)]) := by
  intro m hm
  unfold findTriplesHalf at hm
  obtain ⟨ck, hckmem, hf⟩ := List.mem_filterMap.mp hm
  have hwG : (G.headD []).length = W := headD_length G hg h1
  have hE1 : 0 ≤ (G.length : Int) - 1 + 1 := by omega
  have hE2 : 0 ≤ ((G.headD []).length : Int) - 3 + 1 := by rw [hwG]; push_cast; omega
  obtain ⟨hi, wi, hhi, hwi, hckeq⟩ := mem_iterchunksPos_elim G 3 1 tr hE1 hE2 hckmem
  subst hckeq
  obtain ⟨hl, hrows⟩ := hg
  have hhiH : hi < H := by rw [hl] at hhi; omega
  have hwiW : wi + 2 < W := by rw [hwG] at hwi; omega
  cases hrow : G.get? hi with
  | none => rw [List.get?_eq_none] at hrow; omega
  | some rowg =>
  have hrl : rowg.length = W := hrows rowg (List.get?_mem hrow)
  cases hx0 : rowg.get? wi with
  | none => rw [List.get?_eq_none] at hx0; omega
  | some x0 =>
  cases hx1 : rowg.get? (wi + 1) with
  | none => rw [List.get?_eq_none] at hx1; omega
  | some x1 =>
  cases hx2 : rowg.get? (wi + 2) with
  | none => rw [List.get?_eq_none] at hx2; omega
  | some x2 =>
  have hhead : (chunkRows G 3 1 (hi : Int) (wi : Int)).headD [] = [x0, x1, x2] := by
    rw [chunkRows31_head G hi wi rowg hrow]
    exact take3_eq rowg wi x0 x1 x2 hx0 hx1 hx2
  simp only [hhead] at hf
  by_cases hded : ([x0, x1, x2].dedup.length = 1)
  · rw [if_pos hded] at hf
    obtain ⟨he1, he2⟩ := (dedup_triple_iff x0 x1 x2).mp hded
    refine ⟨hi, wi, x0, hhiH, hwiW, ?_, ?_, ?_, ?_⟩
    · unfold getN; rw [hrow]; simpa using hx0
    · unfold getN; rw [hrow]; rw [← he1] at hx1; simpa using hx1
    · unfold getN; rw [hrow]; rw [← he2] at hx2; simpa using hx2
    · have hm2 := Option.some.inj hf
      cases tr
      · rw [← hm2]; rfl
      · rw [← hm2]; rfl
  · rw [if_neg hded] at hf
    cases hf

/-- One scan half of `findMatches` does emit the group of every all-equal
window. -/
theorem findTriplesHalf_complete (G : Grid) (H W : Nat) (tr : Bool)
    (hg : Rect G H W) (h1 : 1 ≤ H) (w2 : 2 ≤ W) (hi wi : Nat) (v : Orb)
    (hhi : hi < H) (hwi : wi + 2 < W)
    (c0 : getN G hi wi = some v) (c1 : getN G hi (wi + 1) = some v)
    (c2 : getN G hi (wi + 2) = some v) :
    (if tr then [((wi : Int), (hi : Int)), ((wi : Int) + 1, (hi : Int)),
        ((wi : Int) + 2, (hi : Int))]
     else [((hi : Int), (wi : Int)), ((hi : Int), (wi : Int) + 1),
        ((hi : Int), (wi : Int) + 2)]) ∈ findTriplesHalf (iterchunksPos G 3 1 tr) tr := by
  have hwG : (G.headD []).length = W := headD_length G hg h1
  obtain ⟨hl, hrows⟩ := hg
  cases hrow : G.get? hi with
  | none => rw [List.get?_eq_none] at hrow; omega
  | some rowg =>
  have hrl : rowg.length = W := hrows rowg (List.get?_mem hrow)
  have hg0 : rowg.get? wi = some v := by
    unfold getN at c0; rw [hrow] at c0; simpa using c0
  have hg1 : rowg.get? (wi + 1) = some v := by
    unfold getN at c1; rw [hrow] at c1; simpa using c1
  have hg2 : rowg.get? (wi + 2) = some v := by
    unfold getN at c2; rw [hrow] at c2; simpa using c2
  have hhead : (chunkRows G 3 1 (hi : Int) (wi : Int)).headD [] = [v, v, v] := by
    rw [chunkRows31_head G hi wi rowg hrow]
    exact take3_eq rowg wi v v v hg0 hg1 hg2
  unfold findTriplesHalf
  apply List.mem_filterMap.mpr
  refine ⟨⟨chunkRows G 3 1 (hi : Int) (wi : Int),
      if tr then ((wi : Int), (hi : Int)) else ((hi : Int), (wi : Int)),
      if tr then ((wi : Int) + 3 - 1, (hi : Int) + 1 - 1)
      else ((hi : Int) + 1 - 1, (wi : Int) + 3 - 1)⟩,
    mem_iterchunksPos_intro G 3 1 tr hi wi (by rw [hl]; push_cast; omega)
      (by rw [hwG]; push_cast; omega), ?_⟩
  simp only [hhead]
  rw [if_pos ((dedup_triple_iff v v v).mpr ⟨rfl, rfl⟩)]
  cases tr <;> simp

/-- The claim's characterization of a horizontal structural group. -/
def HorizGroup (g : Grid) (hh ww : Nat) (m : List Coord) : Prop :=
  ∃ r c : Nat, ∃ v : Orb, r < hh ∧ c + 2 < ww ∧
    m = [((r : Int), (c : Int)), ((r : Int), (c : Int) + 1), ((r : Int), (c : Int) + 2)] ∧
    getN g r c = some v ∧ getN g r (c + 1) = some v ∧ getN g r (c + 2) = some v

/-- The claim's characterization of a vertical structural group. -/
def VertGroup (g : Grid) (hh ww : Nat) (m : List Coord) : Prop :=
  ∃ r c : Nat, ∃ v : Orb, r + 2 < hh ∧ c < ww ∧
    m = [((r : Int), (c : Int)), ((r : Int) + 1, (c : Int)), ((r : Int) + 2, (c : Int))] ∧
    getN g r c = some v ∧ getN g (r + 1) c = some v ∧ getN g (r + 2) c = some v

/-- C6 amended: on every rectangular grid with both dimensions at least 2,
each group returned by structural enumeration is exactly 3 distinct
in-bounds coordinates, consecutive along one row or one column, holding
equal token values, with absolute coordinates stepped from the window
anchor (transposed back for vertical runs); and conversely every all-equal
3-in-a-row or 3-in-a-column window yields its group.  (The original claim,
quantified over every grid, fails on degenerate 1-wide grids, see the
counterexample.) -/
theorem claim6_amended_structural_enumeration (g : Grid) (hh ww : Nat)
    (hg : Rect g hh ww) (h2 : 2 ≤ hh) (w2 : 2 ≤ ww) :
    (∀ m ∈ findMatches g, HorizGroup g hh ww m ∨ VertGroup g hh ww m)
    ∧ (∀ r c : Nat, ∀ v : Orb, r < hh → c + 2 < ww → getN g r c = some v →
        getN g r (c + 1) = some v → getN g r (c + 2) = some v →
        [((r : Int), (c : Int)), ((r : Int), (c : Int) + 1), ((r : Int), (c : Int) + 2)]
          ∈ findMatches g)
    ∧ (∀ r c : Nat, ∀ v : Orb, r + 2 < hh → c < ww → getN g r c = some v →
        getN g (r + 1) c = some v → getN g (r + 2) c = some v →
        [((r : Int), (c : Int)), ((r : Int) + 1, (c : Int)), ((r : Int) + 2, (c : Int))]
          ∈ findMatches g) := by
  have hgt : Rect (transposeG g) ww hh := rect_transposeG g hg (by omega)
  refine ⟨?_, ?_, ?_⟩
  · intro m hm
    unfold findMatches at hm
    rcases List.mem_append.mp hm with hm1 | hm2
    · left
      obtain ⟨hi, wi, v, hhi, hwi, c0, c1, c2, hpat⟩ :=
        findTriplesHalf_sound g hh ww false hg (by omega) (by omega) m hm1
      exact ⟨hi, wi, v, hhi, hwi, by simpa using hpat, c0, c1, c2⟩
    · right
      obtain ⟨hi, wi, v, hhi, hwi, c0, c1, c2, hpat⟩ :=
        findTriplesHalf_sound (transposeG g) ww hh true hgt (by omega) (by omega) m hm2
      rw [getN_transposeG g hg wi hi (by omega) hhi] at c0
      rw [getN_transposeG g hg (wi + 1) hi (by omega) hhi] at c1
      rw [getN_transposeG g hg (wi + 2) hi (by omega) hhi] at c2
      exact ⟨wi, hi, v, hwi, hhi, by simpa using hpat, c0, c1, c2⟩
  · intro r c v hr hc c0 c1 c2
    unfold findMatches
    apply List.mem_append_left
    have hmem := findTriplesHalf_complete g hh ww false hg (by omega) (by omega)
      r c v hr hc c0 c1 c2
    simpa using hmem
  · intro r c v hr hc c0 c1 c2
    unfold findMatches
    apply List.mem_append_right
    have t0 : getN (transposeG g) c r = some v := by
      rw [getN_transposeG g hg r c (by omega) hc]; exact c0
    have t1 : getN (transposeG g) c (r + 1) = some v := by
      rw [getN_transposeG g hg (r + 1) c (by omega) hc]; exact c1
    have t2 : getN (transposeG g) c (r + 2) = some v := by
      rw [getN_transposeG g hg (r + 2) c (by omega) hc]; exact c2
    have hmem := findTriplesHalf_complete (transposeG g) ww hh true hgt
      (by omega) (by omega) c r v hc (by omega) t0 t1 t2
    simpa using hmem

theorem claim6_amended_structural_enumeration_witness :
    [((0 : Int), (0 : Int)), ((0 : Int), (0 : Int) + 1), ((0 : Int), (0 : Int) + 2)]
      ∈ findMatches [[Orb.tok 0, Orb.tok 0, Orb.tok 0],
        [Orb.tok 1, Orb.tok 1, Orb.tok 0], [Orb.tok 0, Orb.tok 1, Orb.tok 1]] :=
  (claim6_amended_structural_enumeration _ 3 3 (by decide) (by decide)
      (by decide)).2.1 0 0 (Orb.tok 0) (by omega) (by omega) (by decide)
    (by decide) (by decide)

/-- C6 counterexample: on the 1 × 1 grid the lodash `_.range(0, -1) = [0]`
quirk makes the scanner emit a window anyway, and structural enumeration
returns two groups whose coordinates run off the board — so the claim as
stated (over every grid) is false. -/
theorem claim6_counterexample_out_of_bounds_groups :
    findMatches [[Orb.tok 0]]
      = [[(0, 0), (0, 1), (0, 2)], [(0, 0), (1, 0), (2, 0)]]
    ∧ ¬(∀ m ∈ findMatches [[Orb.tok 0]], ∀ p ∈ m, p.1 < 1 ∧ p.2 < 1) := by
  decide

/-! ## Merger lemmas (claim C5) -/

theorem mem_insertCoord (x y : Coord) (l : List Coord) :
    y ∈ insertCoord x l ↔ y = x ∨ y ∈ l := by
  induction l with
  | nil => simp [insertCoord]
  | cons a as ih =>
    unfold insertCoord
    by_cases hle : leCoord x a = true
    · simp [hle]
    · simp only [hle, Bool.false_eq_true, if_false, List.mem_cons, ih]
      tauto

theorem mem_sortCoord (y : Coord) (l : List Coord) :
    y ∈ sortCoord l ↔ y ∈ l := by
  induction l with
  | nil => simp [sortCoord]
  | cons a as ih => simp [sortCoord, mem_insertCoord, ih]

theorem mem_canon (y : Coord) (l : List Coord) : y ∈ canon l ↔ y ∈ l := by
  simp [canon, mem_sortCoord]

theorem combinePass_cur_sub (cur : List Coord) (pool : List (List Coord)) :
    ∀ x ∈ cur, x ∈ (combinePass cur pool).1 := by
  induction pool generalizing cur with
  | nil => intro x hx; simpa [combinePass] using hx
  | cons m rest ih =>
    intro x hx
    unfold combinePass
    by_cases hm : (m.any fun y => decide (y ∈ cur)) = true
    · rw [if_pos hm]
      exact ih (canon (cur ++ m)) x ((mem_canon x _).mpr (List.mem_append_left m hx))
    · rw [if_neg hm]
      exact ih cur x hx

theorem combinePass_kept_mem (cur : List Coord) (pool : List (List Coord)) :
    ∀ m2 ∈ (combinePass cur pool).2, m2 ∈ pool := by
  induction pool generalizing cur with
  | nil => intro m2 h; simp [combinePass] at h
  | cons m rest ih =>
    intro m2 h
    unfold combinePass at h
    by_cases hm : (m.any fun y => decide (y ∈ cur)) = true
    · rw [if_pos hm] at h
      exact List.mem_cons_of_mem m (ih (canon (cur ++ m)) m2 h)
    · rw [if_neg hm] at h
      simp only [List.mem_cons] at h
      rcases h with h | h
      · exact h ▸ List.mem_cons_self m rest
      · exact List.mem_cons_of_mem m (ih cur m2 h)

theorem combinePass_kept_disjoint (cur : List Coord) (pool : List (List Coord)) :
    ∀ m2 ∈ (combinePass cur pool).2, ∀ x ∈ m2, x ∉ cur := by
  induction pool generalizing cur with
  | nil => intro m2 h; simp [combinePass] at h
  | cons m rest ih =>
    intro m2 h x hx
    unfold combinePass at h
    by_cases hm : (m.any fun y => decide (y ∈ cur)) = true
    · rw [if_pos hm] at h
      intro hcur
      exact ih (canon (cur ++ m)) m2 h x hx
        ((mem_canon x _).mpr (List.mem_append_left m hcur))
    · rw [if_neg hm] at h
      simp only [List.mem_cons] at h
      rcases h with h | h
      · subst h
        intro hcur
        have : m2.any (fun y => decide (y ∈ cur)) = true :=
          List.any_eq_true.mpr ⟨x, hx, by simpa using hcur⟩
        exact hm this
      · exact ih cur m2 h x hx

theorem combineSeedsAux_are_canon :
    ∀ fuel pool, ∀ sd ∈ combineSeedsAux fuel pool, ∃ m ∈ pool, sd = canon m := by
  intro fuel
  induction fuel with
  | zero => intro pool sd h; simp [combineSeedsAux] at h
  | succ fuel ih =>
    intro pool sd h
    cases pool with
    | nil => simp [combineSeedsAux] at h
    | cons m rest =>
      unfold combineSeedsAux at h
      simp only [List.mem_cons] at h
      rcases h with h | h
      · exact ⟨m, List.mem_cons_self m rest, h⟩
      · obtain ⟨m2, hmem, heq⟩ := ih _ sd h
        exact ⟨m2, List.mem_cons_of_mem m
          (combinePass_kept_mem (canon m) rest m2 hmem), heq⟩

theorem combineSeedsAux_pairwise_disjoint :
    ∀ fuel pool, (combineSeedsAux fuel pool).Pairwise fun a b => ∀ x ∈ a, x ∉ b := by
  intro fuel
  induction fuel with
  | zero => intro pool; simp [combineSeedsAux]
  | succ fuel ih =>
    intro pool
    cases pool with
    | nil => simp [combineSeedsAux]
    | cons m rest =>
      unfold combineSeedsAux
      refine List.Pairwise.cons ?_ (ih _)
      intro sd hsd x hxm hxsd
      obtain ⟨m2, hm2, heq⟩ := combineSeedsAux_are_canon fuel _ sd hsd
      subst heq
      have hx2 : x ∈ m2 := (mem_canon x m2).mp hxsd
      exact combinePass_kept_disjoint (canon m) rest m2 hm2 x hx2 hxm

theorem combineAux_seeds_sub_outputs :
    ∀ fuel pool, List.Forall₂ (fun sd out => ∀ x ∈ sd, x ∈ out)
      (combineSeedsAux fuel pool) (combineMatchesAux fuel pool) := by
  intro fuel
  induction fuel with
  | zero => intro pool; simp [combineSeedsAux, combineMatchesAux]
  | succ fuel ih =>
    intro pool
    cases pool with
    | nil => simp [combineSeedsAux, combineMatchesAux]
    | cons m rest =>
      unfold combineSeedsAux combineMatchesAux
      exact List.Forall₂.cons (combinePass_cur_sub (canon m) rest) (ih _)

/-- The grid whose plus-shaped match configuration breaks the merger's
disjointness: row 0, row 2 and column 0 are all runs of the same token. -/
def plusGrid : Grid :=
  [[Orb.tok 0, Orb.tok 0, Orb.tok 0],
   [Orb.tok 0, Orb.tok 1, Orb.tok 1],
   [Orb.tok 0, Orb.tok 0, Orb.tok 0]]

/-- C5 counterexample: on `plusGrid`, structural enumeration returns the two
horizontal triples and then the vertical one; `combineMatches` merges the
vertical triple into the first group only (the single pass never revisits
the already-scanned second triple), so the two returned groups share the
coordinate `(2, 0)`. -/
theorem claim5_counterexample_groups_share_coordinate :
    ¬ ((combineMatches (findMatches plusGrid)).Pairwise fun a b => ∀ x ∈ a, x ∉ b)
    ∧ (combineMatches (findMatches plusGrid)).length = 2
    ∧ ((2 : Int), (0 : Int)) ∈ (combineMatches (findMatches plusGrid)).getD 0 []
    ∧ ((2 : Int), (0 : Int)) ∈ (combineMatches (findMatches plusGrid)).getD 1 [] := by
  decide

/-- C5 amended: the merger's single left-to-right pass does not make the
full returned groups pairwise disjoint (a later raw triple can bridge two
earlier groups, as the counterexample shows); what holds is that the seed
sets of distinct returned groups are pairwise coordinate-disjoint, and each
seed is contained in its returned group. -/
theorem claim5_amended_seed_disjointness (pool : List (List Coord)) :
    ((combineSeeds pool).Pairwise fun a b => ∀ x ∈ a, x ∉ b)
    ∧ List.Forall₂ (fun sd out => ∀ x ∈ sd, x ∈ out)
        (combineSeeds pool) (combineMatches pool) :=
  ⟨combineSeedsAux_pairwise_disjoint pool.length pool,
   combineAux_seeds_sub_outputs pool.length pool⟩

/-- C1: whenever construction returns, and whenever `shuffle` returns, the
resulting grid has no match and has a potential match (equivalently,
`needsShuffle` is false).  Stated for boards with at least 2 distinct token
types and both dimensions at least the scan window, as the claim scopes it;
the conclusion is a consequence of the loops' exit conditions alone. -/
theorem claim1_fresh_board_invariant :
    (∀ width height : Nat, ∀ types : List Orb, ∀ s : Nat → Nat, ∀ fuel i : Nat,
      ∀ b : Board, ∀ i2 : Nat,
        2 ≤ types.dedup.length → 3 ≤ width → 3 ≤ height →
        constructM width height types s fuel i = some (b, i2) →
        hasMatch b.orbs = false ∧ hasPotentialMatch b.orbs = true)
    ∧ (∀ height width : Nat, ∀ s : Nat → Nat, ∀ fuel : Nat, ∀ g : Grid, ∀ i : Nat,
        ∀ g2 : Grid, ∀ i2 : Nat,
        2 ≤ g.flatten.dedup.length → 3 ≤ width → 3 ≤ height →
        shuffleLoop height width s fuel g i = some (g2, i2) →
        hasMatch g2 = false ∧ hasPotentialMatch g2 = true) := by
  constructor
  · intro width height types s fuel i b i2 _ _ _ h
    unfold constructM at h
    simp only [] at h
    by_cases hc : (hasMatch (transposeG (sampleRowsM types s width height i).1)
        || needsShuffle (transposeG (sampleRowsM types s width height i).1)) = true
    · rw [if_pos hc] at h
      cases hs : shuffleLoop height width s fuel
          (transposeG (sampleRowsM types s width height i).1)
          (sampleRowsM types s width height i).2 with
      | none => rw [hs] at h; simp at h
      | some gi =>
        rw [hs] at h
        simp only [Option.some.injEq, Prod.mk.injEq] at h
        have hpost := shuffleLoop_post height width s fuel _ _ gi.1 gi.2 (by rw [hs])
        rw [← h.1]
        exact hpost
    · rw [if_neg hc] at h
      simp only [Option.some.injEq, Prod.mk.injEq] at h
      have hboth := Bool.or_eq_false_iff.mp (Bool.eq_false_iff.mpr hc)
      have hpm : hasPotentialMatch
          (transposeG (sampleRowsM types s width height i).1) = true := by
        have := hboth.2
        simpa [needsShuffle] using this
      rw [← h.1]
      exact ⟨hboth.1, hpm⟩
  · intro height width s fuel g i g2 i2 _ _ _ h
    exact shuffleLoop_post height width s fuel g i g2 i2 h

/-- The pattern grid the construction witness produces. -/
def wGridP : Grid :=
  [[Orb.tok 0, Orb.tok 0, Orb.tok 1, Orb.tok 1],
   [Orb.tok 1, Orb.tok 1, Orb.tok 0, Orb.tok 0],
   [Orb.tok 0, Orb.tok 0, Orb.tok 1, Orb.tok 1],
   [Orb.tok 1, Orb.tok 1, Orb.tok 0, Orb.tok 0]]

/-- The pattern grid the shuffle witness runs on (the zero supply makes the
Fisher-Yates row permutations the identity). -/
def wGridQ : Grid :=
  [[Orb.tok 1, Orb.tok 1, Orb.tok 0, Orb.tok 0],
   [Orb.tok 0, Orb.tok 0, Orb.tok 1, Orb.tok 1],
   [Orb.tok 1, Orb.tok 1, Orb.tok 0, Orb.tok 0],
   [Orb.tok 0, Orb.tok 0, Orb.tok 1, Orb.tok 1]]

theorem claim1_fresh_board_invariant_witness :
    ((hasMatch wGridP = false ∧ hasPotentialMatch wGridP = true)
      ∧ (hasMatch wGridQ = false ∧ hasPotentialMatch wGridQ = true)) :=
  ⟨claim1_fresh_board_invariant.1 4 4 [Orb.tok 0, Orb.tok 1]
      (fun n => [0, 1, 0, 1, 0, 1, 0, 1, 1, 0, 1, 0, 1, 0, 1, 0].getD n 0) 1 0
      { width := 4, height := 4, types := [Orb.tok 0, Orb.tok 1], orbs := wGridP } 16
      (by decide) (by decide) (by decide) (by decide),
    claim1_fresh_board_invariant.2 4 4 (fun _ => 0) 2 wGridQ 0 wGridQ 16
      (by decide) (by decide) (by decide) (by decide)⟩

/-- C9: in the random-fallback path of `_unmatch`, any coordinate the loop
accepts holds a token different from the targeted orb, and is therefore
never a member of the current match group, since every member of a genuine
match group holds the targeted orb's token.  (The source's
`_.includes(match, [randomRow, randomCol])` test itself is vacuous — it
compares a fresh array by reference — so the exclusion comes from the
token-difference test.) -/
theorem claim9_fallback_avoids_match (g : Grid) (height width : Nat)
    (row col : Int) (mt : List Coord) (s : Nat → Nat) (fuel i : Nat)
    (rr rc i2 : Nat)
    (hgroup : ∀ p ∈ mt, getI g p.1 p.2 = getI g row col)
    (hres : fallbackLoop g height width (getI g row col) mt s fuel i
      = some ((rr, rc), i2)) :
    ((rr : Int), (rc : Int)) ∉ mt ∧ getI g rr rc ≠ getI g row col := by
  induction fuel generalizing i with
  | zero => simp [fallbackLoop] at hres
  | succ fuel ih =>
    unfold fallbackLoop at hres
    by_cases hc : (!coordRefIncludes mt
        ((jsRandomN (height - 1) (s i) : Int), (jsRandomN (width - 1) (s (i + 1)) : Int))
      && decide (getI g (jsRandomN (height - 1) (s i)) (jsRandomN (width - 1) (s (i + 1)))
        ≠ getI g row col)) = true
    · rw [if_pos hc] at hres
      simp only [Option.some.injEq, Prod.mk.injEq] at hres
      obtain ⟨⟨h1, h2⟩, _⟩ := hres
      simp only [coordRefIncludes, Bool.not_false, Bool.true_and,
        decide_eq_true_eq] at hc
      rw [h1, h2] at hc
      refine ⟨fun hmem => hc (hgroup _ hmem), hc⟩
    · rw [if_neg hc] at hres
      exact ih _ hres

theorem claim9_fallback_avoids_match_witness :
    ((1 : Int), (0 : Int)) ∉ ([((0 : Int), (0 : Int)), (0, 1), (0, 2)] : List Coord)
      ∧ getI [[Orb.tok 0, Orb.tok 0, Orb.tok 0], [Orb.tok 1, Orb.tok 0, Orb.tok 0],
          [Orb.tok 0, Orb.tok 0, Orb.tok 0]] (1 : Int) (0 : Int)
        ≠ getI [[Orb.tok 0, Orb.tok 0, Orb.tok 0], [Orb.tok 1, Orb.tok 0, Orb.tok 0],
          [Orb.tok 0, Orb.tok 0, Orb.tok 0]] 0 1 :=
  claim9_fallback_avoids_match
    [[Orb.tok 0, Orb.tok 0, Orb.tok 0], [Orb.tok 1, Orb.tok 0, Orb.tok 0],
      [Orb.tok 0, Orb.tok 0, Orb.tok 0]] 3 3 0 1
    [(0, 0), (0, 1), (0, 2)] (fun n => if n = 0 then 1 else 0) 1 0 1 0 2
    (by decide) (by decide)

/-- C7 counterexample: the constructor performs no validation at all — with
`height = 2 < 3` (smaller than the scan window) it happily returns a Board
instead of failing with a `ConfigurationError`. -/
theorem claim7_counterexample_height2_succeeds :
    constructM 4 2 [Orb.tok 0, Orb.tok 1]
      (fun n => [0, 0, 1, 1, 1, 1, 0, 0].getD n 0) 1 0
      = some ({ width := 4, height := 2, types := [Orb.tok 0, Orb.tok 1],
                orbs := [[Orb.tok 0, Orb.tok 1], [Orb.tok 0, Orb.tok 1],
                         [Orb.tok 1, Orb.tok 0], [Orb.tok 1, Orb.tok 0]] }, 8) := by
  decide

/-- C7 amended: Board construction validates nothing and has no error
outcome (there is no `ConfigurationError` anywhere in the code): for any
width, height and types whatsoever, as soon as the freshly sampled grid has
no match and has a potential match, construction returns a Board built from
that grid. -/
theorem claim7_amended_no_validation (width height : Nat) (types : List Orb)
    (s : Nat → Nat) (fuel i : Nat)
    (hm : hasMatch (transposeG (sampleRowsM types s width height i).1) = false)
    (hp : hasPotentialMatch (transposeG (sampleRowsM types s width height i).1) = true) :
    constructM width height types s fuel i
      = some ({ width := width, height := height, types := types,
                orbs := transposeG (sampleRowsM types s width height i).1 },
              (sampleRowsM types s width height i).2) := by
  unfold constructM
  simp [hm, needsShuffle, hp]

theorem claim7_amended_no_validation_witness :
    constructM 4 2 [Orb.tok 0, Orb.tok 1]
      (fun n => [0, 0, 1, 1, 1, 1, 0, 1].getD n 0) 1 0
      = some ({ width := 4, height := 2, types := [Orb.tok 0, Orb.tok 1],
                orbs := transposeG (sampleRowsM [Orb.tok 0, Orb.tok 1]
                  (fun n => [0, 0, 1, 1, 1, 1, 0, 1].getD n 0) 4 2 0).1 },
              (sampleRowsM [Orb.tok 0, Orb.tok 1]
                (fun n => [0, 0, 1, 1, 1, 1, 0, 1].getD n 0) 4 2 0).2) :=
  claim7_amended_no_validation 4 2 [Orb.tok 0, Orb.tok 1]
    (fun n => [0, 0, 1, 1, 1, 1, 0, 1].getD n 0) 1 0 (by decide) (by decide)

theorem claim10_swap_preserves_shape_and_tokens_witness :
    Rect (swapM [[Orb.tok 0, Orb.tok 1], [Orb.tok 1, Orb.tok 0]] (0, 0) (1, 1) false) 2 2
      ∧ (swapM [[Orb.tok 0, Orb.tok 1], [Orb.tok 1, Orb.tok 0]] (0, 0) (1, 1)
          false).flatten.Perm [[Orb.tok 0, Orb.tok 1], [Orb.tok 1, Orb.tok 0]].flatten :=
  claim10_swap_preserves_shape_and_tokens _ 2 2 _ _ false (by decide)
    (by decide) (by decide) (by decide) (by decide)

end MatchThree
